import Mathlib

/-!
Shallow embedding of the Nine Men's Morris rules engine
(`game.py`, class `NineMensMorrisEnv`) and proofs of the specification
claims about it.

Modelling conventions:
* The Python object state becomes the structure `Env`; mutation becomes
  explicit state passing — `step` returns the updated `Env` together with
  the reward, the done flag and the info dictionary.
* Python dictionaries keyed by the player identities `1` / `-1`
  (`pieces_in_hand`, `pieces_on_board`, `player_phase`) become the
  two-slot structure `PlayerMap` read and written through an `Int` key.
* The numpy board array (`int8[24]`) becomes a `List Int` of length 24;
  `board[pos]` becomes `List.getD pos 0` (all source accesses are in
  range, so the default is never observable in real executions).
* Python float rewards become `Rat`; the source only ever assigns and
  adds decimal constants to them, so exact rationals are faithful for
  every property stated here.
* `move_history` (a list of display strings appended for the UI log) is
  omitted: no rule logic ever reads it.
-/

namespace NMM

/-- Phase strings of the source: one of the Python string literals
`placement`, `movement`, `flying`. -/
inductive Phase where
  | placement : Phase
  | movement : Phase
  | flying : Phase
deriving DecidableEq, Repr

/-- A Python dict keyed by the two player identities `1` and `-1`.
`pos` is the value stored under key `1`, `neg` the value under `-1`.
The source only ever indexes such dicts with `1` or `-1`; any other key
is read from and written to the `-1` slot here (Python would raise
`KeyError`, which never happens in real executions). -/
structure PlayerMap (α : Type) where
  pos : α
  neg : α
deriving DecidableEq, Repr

/-- Read a `PlayerMap` with a player key. -/
def PlayerMap.get {α : Type} (m : PlayerMap α) (p : Int) : α :=
  if p = 1 then m.pos else m.neg

/-- Write a `PlayerMap` at a player key. -/
def PlayerMap.set {α : Type} (m : PlayerMap α) (p : Int) (v : α) : PlayerMap α :=
  if p = 1 then { m with pos := v } else { m with neg := v }

/-- The mutable state of `NineMensMorrisEnv` (see `reset`,
`game.py` lines 33-48).  Field names follow the Python attributes. -/
structure Env where
  board : List Int
  global_phase : Phase
  player_phase : PlayerMap Phase
  current_player : Int
  pieces_in_hand : PlayerMap Int
  pieces_on_board : PlayerMap Int
  winner : Option Int
  move_count : Nat
  last_mill_formed : Bool
  last_capture : Bool
deriving DecidableEq, Repr

/-- `BOARD_POSITIONS = 24`. -/
def BOARD_POSITIONS : Nat := 24

/-- `PIECES_PER_PLAYER = 9`. -/
def PIECES_PER_PLAYER : Int := 9

/-- `ACTION_PLACEMENT_START = 0`. -/
def ACTION_PLACEMENT_START : Nat := 0

/-- `ACTION_MOVEMENT_START = 24`. -/
def ACTION_MOVEMENT_START : Nat := 24

/-- `ACTION_CAPTURE_START = 600`. -/
def ACTION_CAPTURE_START : Nat := 600

/-- `ACTION_SPACE_SIZE = 624`. -/
def ACTION_SPACE_SIZE : Nat := 624

/-- The static mill table `MILLS` (game.py lines 10-13). -/
def MILLS : List (List Nat) :=
  [[0,1,2], [3,4,5], [6,7,8], [9,10,11], [12,13,14], [15,16,17], [18,19,20], [21,22,23],
   [0,9,21], [3,10,18], [6,11,15], [1,4,7], [16,19,22], [8,12,17], [5,13,20], [2,14,23]]

/-- The static adjacency table `ADJACENCY` (game.py lines 16-22).
Keys outside 0-23 (never queried by the source) give the empty list. -/
def ADJACENCY : Nat → List Nat
  | 0 => [1,9]
  | 1 => [0,2,4]
  | 2 => [1,14]
  | 3 => [4,10]
  | 4 => [1,3,5,7]
  | 5 => [4,13]
  | 6 => [7,11]
  | 7 => [4,6,8]
  | 8 => [7,12]
  | 9 => [0,10,21]
  | 10 => [3,9,11,18]
  | 11 => [6,10,15]
  | 12 => [8,13,17]
  | 13 => [5,12,14,20]
  | 14 => [2,13,23]
  | 15 => [11,16]
  | 16 => [15,17,19]
  | 17 => [12,16]
  | 18 => [10,19]
  | 19 => [16,18,20,22]
  | 20 => [13,19]
  | 21 => [9,22]
  | 22 => [19,21,23]
  | 23 => [14,22]
  | _ => []

/-- The actions passed to `step`: the Python tuples
`('place', None, to_pos)`, `('move', from_pos, to_pos)` and
`('capture', from_pos, None)`. -/
inductive Action where
  | place (to_pos : Nat)
  | move (from_pos to_pos : Nat)
  | capture (from_pos : Nat)
deriving DecidableEq, Repr

/-- The `info` dictionary returned by `step`: either the early-return
dictionary of the capture-owed branch, which is always
`\x7b'needs_capture': True, 'formed_mill': True\x7d`, or the dictionary built
at the end of a completed step from the two event flags. -/
inductive Info where
  | needs_capture : Info
  | final (formed_mill : Bool) (capture : Bool) : Info
deriving DecidableEq, Repr

/-- Whether an info dictionary is the capture-owed early return. -/
def Info.isOwed : Info → Bool
  | .needs_capture => true
  | .final _ _ => false

/-- The tuple returned by `step`, with the mutated environment made
explicit in place of the mutated `self` (the returned observation tensor
is `get_state` of `env` and is therefore not duplicated here). -/
structure StepResult where
  env : Env
  reward : Rat
  done : Bool
  info : Info
deriving DecidableEq, Repr

/-- `reset` (game.py lines 33-48): the freshly initialised session. -/
def resetEnv : Env where
  board := List.replicate BOARD_POSITIONS 0
  global_phase := Phase.placement
  player_phase := { pos := Phase.placement, neg := Phase.placement }
  current_player := 1
  pieces_in_hand := { pos := PIECES_PER_PLAYER, neg := PIECES_PER_PLAYER }
  pieces_on_board := { pos := 0, neg := 0 }
  winner := none
  move_count := 0
  last_mill_formed := false
  last_capture := false

/-- `get_state` (game.py lines 50-75): the 7-channel observation tensor,
one list of 24 rationals per channel.  Channels 2-4 mirror the source
`if/elif/else` chain on the phase string; the `else` branch of that
chain is the `flying` case.  `float32` values are modelled as exact
rationals. -/
def get_state (e : Env) : List (List Rat) :=
  let phase := e.player_phase.get e.current_player
  [ (List.range BOARD_POSITIONS).map
      (fun pos => if e.board.getD pos 0 = e.current_player then (1 : Rat) else 0),
    (List.range BOARD_POSITIONS).map
      (fun pos => if e.board.getD pos 0 = -e.current_player then (1 : Rat) else 0),
    (List.range BOARD_POSITIONS).map
      (fun _ => if phase = Phase.placement then (1 : Rat) else 0),
    (List.range BOARD_POSITIONS).map
      (fun _ => if phase ≠ Phase.placement ∧ phase = Phase.movement then (1 : Rat) else 0),
    (List.range BOARD_POSITIONS).map
      (fun _ => if phase ≠ Phase.placement ∧ phase ≠ Phase.movement then (1 : Rat) else 0),
    (List.range BOARD_POSITIONS).map
      (fun _ => (e.pieces_in_hand.get e.current_player : Rat) / (PIECES_PER_PLAYER : Rat)),
    (List.range BOARD_POSITIONS).map
      (fun pos => if e.board.getD pos 0 = 0 then (1 : Rat) else 0) ]

/-- `get_valid_actions` (game.py lines 77-104), preserving the source
iteration order. -/
def get_valid_actions (e : Env) : List Action :=
  let phase := e.player_phase.get e.current_player
  if phase = Phase.placement then
    if e.pieces_in_hand.get e.current_player > 0 then
      (List.range BOARD_POSITIONS).filterMap fun pos =>
        if e.board.getD pos 0 = 0 then some (Action.place pos) else none
    else []
  else if phase = Phase.movement then
    (List.range BOARD_POSITIONS).flatMap fun from_pos =>
      if e.board.getD from_pos 0 = e.current_player then
        (ADJACENCY from_pos).filterMap fun to_pos =>
          if e.board.getD to_pos 0 = 0 then some (Action.move from_pos to_pos) else none
      else []
  else
    (List.range BOARD_POSITIONS).flatMap fun from_pos =>
      if e.board.getD from_pos 0 = e.current_player then
        (List.range BOARD_POSITIONS).filterMap fun to_pos =>
          if e.board.getD to_pos 0 = 0 then some (Action.move from_pos to_pos) else none
      else []

/-- `_is_in_mill` (game.py lines 284-289): scan the mill table for a
triple containing `pos` whose three cells all hold `player`. -/
def is_in_mill (board : List Int) (pos : Nat) (player : Int) : Bool :=
  MILLS.any fun mill =>
    mill.contains pos && mill.all fun p => board.getD p 0 == player

/-- `_all_in_mills` (game.py lines 291-296): every cell of `player` on
the board sits inside some complete mill of `player`. -/
def all_in_mills (board : List Int) (player : Int) : Bool :=
  (List.range BOARD_POSITIONS).all fun pos =>
    !(board.getD pos 0 == player) || is_in_mill board pos player

/-- `get_valid_capture_actions` (game.py lines 106-114). -/
def get_valid_capture_actions (e : Env) : List Action :=
  let opponent := -e.current_player
  (List.range BOARD_POSITIONS).filterMap fun pos =>
    if e.board.getD pos 0 = opponent ∧
        (is_in_mill e.board pos opponent = false ∨ all_in_mills e.board opponent = true) then
      some (Action.capture pos)
    else none

/-- `action_to_index` (game.py lines 125-136). -/
def action_to_index : Action → Nat
  | .place to_pos => ACTION_PLACEMENT_START + to_pos
  | .move from_pos to_pos => ACTION_MOVEMENT_START + from_pos * BOARD_POSITIONS + to_pos
  | .capture from_pos => ACTION_CAPTURE_START + from_pos

/-- `index_to_action` (game.py lines 138-150). -/
def index_to_action (index : Nat) : Action :=
  if index < ACTION_MOVEMENT_START then
    Action.place (index - ACTION_PLACEMENT_START)
  else if index < ACTION_CAPTURE_START then
    let offset := index - ACTION_MOVEMENT_START
    Action.move (offset / BOARD_POSITIONS) (offset % BOARD_POSITIONS)
  else
    Action.capture (index - ACTION_CAPTURE_START)

/-- The placement-to-movement transition (game.py lines 222-227):
while the global phase is `placement`, flip it and both player phases
to `movement` as soon as both hands are empty. -/
def updateGlobalPhase (e : Env) : Env :=
  if e.global_phase = Phase.placement then
    if e.pieces_in_hand.get 1 = 0 ∧ e.pieces_in_hand.get (-1) = 0 then
      { e with global_phase := Phase.movement,
               player_phase := { pos := Phase.movement, neg := Phase.movement } }
    else e
  else e

/-- One iteration of the flying scan (game.py lines 231-233): player
`p` enters the flying phase when exactly 3 of their pieces are on the
board. -/
def updateFlying (e : Env) (p : Int) : Env :=
  if e.pieces_on_board.get p = 3 then
    { e with player_phase := e.player_phase.set p Phase.flying }
  else e

/-- The phase recomputation block of `step` (game.py lines 222-233).
The flying scan reads the global phase possibly just updated by the
placement-to-movement block, exactly as the source does; the source
loop `for p in [1, -1]` is unrolled in that order. -/
def updatePhases (e : Env) : Env :=
  let e := updateGlobalPhase e
  if e.global_phase = Phase.movement then updateFlying (updateFlying e 1) (-1)
  else e

/-- The `has_move` computation of the blockade check
(game.py lines 247-264), for the player `p` about to move.
`np.any(board == 0)` becomes an `any` over the 24 cells and the
movement-phase double loop with early break becomes nested `any`. -/
def hasMove (e : Env) (p : Int) : Bool :=
  match e.player_phase.get p with
  | Phase.placement =>
      ((List.range BOARD_POSITIONS).any fun pos => e.board.getD pos 0 == 0) &&
        decide (e.pieces_in_hand.get p > 0)
  | Phase.movement =>
      (List.range BOARD_POSITIONS).any fun from_pos =>
        e.board.getD from_pos 0 == p &&
          (ADJACENCY from_pos).any fun to_pos => e.board.getD to_pos 0 == 0
  | Phase.flying =>
      (List.range BOARD_POSITIONS).any fun pos => e.board.getD pos 0 == 0

/-- The elimination test of the terminal section (game.py lines
239-240): outside the global placement phase, the acting player's
opponent holds fewer than 3 pieces on the board. -/
def elimCond (e : Env) (acting_player : Int) : Bool :=
  !(e.global_phase == Phase.placement) &&
    decide (e.pieces_on_board.get (-acting_player) < 3)

/-- The blockade test of the terminal section (game.py lines 246-269):
evaluated by the source only when elimination has not fired (`if not
done`), hence the `!elimCond` conjunct; the next player (the current
player after the turn passed) has no move. -/
def blockCond (e : Env) (acting_player : Int) : Bool :=
  !elimCond e acting_player && !hasMove e e.current_player

/-- End of a completed (non-capture-owed) `step`
(game.py lines 222-282): phase recomputation followed by the three
terminal checks.  The source mutates `done`, `reward` and `self.winner`
sequentially; here the final values are assembled directly:
elimination fires first (lines 239-243), the blockade check runs only
when elimination has not fired (`if not done`, lines 246-269), and the
move-limit check (lines 272-275, NOT guarded by `not done`) overwrites
`reward` and `winner` last, so a draw verdict replaces a win verdict
set on the same step. -/
def finishStep (e0 : Env) (acting_player : Int) (reward0 : Rat) : StepResult :=
  let e := updatePhases e0
  let elim : Bool := elimCond e acting_player
  let block : Bool := blockCond e acting_player
  let draw : Bool := decide (e.move_count > 200)
  let winner : Option Int :=
    if draw then some 0 else if elim || block then some acting_player else e.winner
  let reward : Rat :=
    if draw then 0 else if elim || block then 3/2 else reward0
  { env := { e with winner := winner },
    reward := reward,
    done := elim || block || draw,
    info := Info.final e.last_mill_formed e.last_capture }

/-- The event-flag reset at the top of `step` (game.py lines 160-161). -/
def clearFlags (e : Env) : Env :=
  { e with last_mill_formed := false, last_capture := false }

/-- The board, hand and counter mutations of the `'place'` branch of
`step` (game.py lines 178-184). -/
def applyPlace (e : Env) (to_pos : Nat) : Env :=
  { e with board := e.board.set to_pos e.current_player,
           pieces_in_hand :=
             e.pieces_in_hand.set e.current_player
               (e.pieces_in_hand.get e.current_player - 1),
           pieces_on_board :=
             e.pieces_on_board.set e.current_player
               (e.pieces_on_board.get e.current_player + 1),
           move_count := e.move_count + 1 }

/-- The board and counter mutations of the `'move'` branch of `step`
(game.py lines 199-204). -/
def applyMove (e : Env) (from_pos to_pos : Nat) : Env :=
  { e with board := (e.board.set from_pos 0).set to_pos e.current_player,
           move_count := e.move_count + 1 }

/-- The mutations of the `'capture'` branch of `step`
(game.py lines 168-176): remove the piece, decrement the opponent
count, pass the turn, count the move, set the capture flag. -/
def applyCapture (e : Env) (from_pos : Nat) : Env :=
  { e with board := e.board.set from_pos 0,
           pieces_on_board :=
             e.pieces_on_board.set (-e.current_player)
               (e.pieces_on_board.get (-e.current_player) - 1),
           current_player := -e.current_player,
           move_count := e.move_count + 1,
           last_capture := true }

/-- `step` (game.py lines 152-282).  The event flags are cleared first
(lines 160-161) and the base reward is `-0.0035` (line 163).  A place
or move that completes a mill through its target cell with at least one
legal capture returns early with the capture-owed info dictionary and
`done = False` (lines 187-194 and 207-214); every other path switches
the current player (place/move) or has already switched it (capture)
and runs the phase update and terminal checks of `finishStep`. -/
def step (e : Env) (action : Action) : StepResult :=
  let acting_player := e.current_player
  let e := clearFlags e
  let reward : Rat := -(35/10000)
  match action with
  | .capture from_pos =>
      finishStep (applyCapture e from_pos) acting_player (reward + 5/100)
  | .place to_pos =>
      let e := applyPlace e to_pos
      if is_in_mill e.board to_pos e.current_player then
        let e := { e with last_mill_formed := true }
        let reward := reward + 1/10
        if 0 < (get_valid_capture_actions e).length then
          { env := e, reward := reward, done := false, info := Info.needs_capture }
        else
          finishStep { e with current_player := -e.current_player } acting_player reward
      else
        finishStep { e with current_player := -e.current_player } acting_player reward
  | .move from_pos to_pos =>
      let e := applyMove e from_pos to_pos
      if is_in_mill e.board to_pos e.current_player then
        let e := { e with last_mill_formed := true }
        let reward := reward + 1/10
        if 0 < (get_valid_capture_actions e).length then
          { env := e, reward := reward, done := false, info := Info.needs_capture }
        else
          finishStep { e with current_player := -e.current_player } acting_player reward
      else
        finishStep { e with current_player := -e.current_player } acting_player reward

/-- One driver step of a game, as used by the exhibition loop in
`app.py` (`execute_turn`): when the previous `step` reported
`needs_capture` the next action is drawn from
`get_valid_capture_actions`, otherwise from `get_valid_actions`, and no
step is taken once a winner or draw is recorded.  The two `Nat`
components are ghost audit counters, not part of the program state:
pieces of player `1` respectively player `-1` removed by enemy
captures so far. -/
def runStep (e : Env) (owed : Bool) (c1 cm1 : Nat) (a : Action) :
    Option (Env × Bool × Nat × Nat) :=
  if e.winner = none ∧
      a ∈ (if owed then get_valid_capture_actions e else get_valid_actions e) then
    let r := step e a
    match a with
    | .capture _ =>
        if e.current_player = 1 then some (r.env, r.info.isOwed, c1, cm1 + 1)
        else some (r.env, r.info.isOwed, c1 + 1, cm1)
    | _ => some (r.env, r.info.isOwed, c1, cm1)
  else none

/-- Run a list of driver steps from a given configuration. -/
def runFrom : Env → Bool → Nat → Nat → List Action → Option (Env × Bool × Nat × Nat)
  | e, owed, c1, cm1, [] => some (e, owed, c1, cm1)
  | e, owed, c1, cm1, a :: rest =>
      match runStep e owed c1 cm1 a with
      | some (e2, owed2, c12, cm12) => runFrom e2 owed2 c12 cm12 rest
      | none => none

/-- Run a list of driver steps from a fresh session. -/
def run (acts : List Action) : Option (Env × Bool × Nat × Nat) :=
  runFrom resetEnv false 0 0 acts

def InCompleteMill (b : List Int) (pos : Nat) (player : Int) : Prop :=
  ∃ mill ∈ MILLS, pos ∈ mill ∧ ∀ q ∈ mill, b.getD q 0 = player

/-- Board of the C2 specification scenario: acting player 1 on cells
0 and 1, opponent on cell 5. -/
def c2env : Env where
  board := [1, 1, 0, 0, 0, -1, 0, 0, 0, 0, 0, 0, 0, 0, 0, 0, 0, 0, 0, 0, 0, 0, 0, 0]
  global_phase := Phase.placement
  player_phase := { pos := Phase.placement, neg := Phase.placement }
  current_player := 1
  pieces_in_hand := { pos := 7, neg := 8 }
  pieces_on_board := { pos := 2, neg := 1 }
  winner := none
  move_count := 3
  last_mill_formed := false
  last_capture := false

/-- Number of cells of the board holding value `p`, as an integer. -/
def countPieces (b : List Int) (p : Int) : Int :=
  ((b.filter fun c => c == p).length : Int)

/-- Structural invariant of every session state the driver loop can
reach: the current player is one of the two identities, the board has
24 cells, the on-board counters agree with the board contents, during
the global placement phase both per-player phases are `placement`, and
the global phase is never `flying`. -/
def Inv0 (e : Env) : Prop :=
  (e.current_player = 1 ∨ e.current_player = -1) ∧
  e.board.length = BOARD_POSITIONS ∧
  e.pieces_on_board.get 1 = countPieces e.board 1 ∧
  e.pieces_on_board.get (-1) = countPieces e.board (-1) ∧
  (e.global_phase = Phase.placement →
    e.player_phase.pos = Phase.placement ∧ e.player_phase.neg = Phase.placement) ∧
  (e.global_phase = Phase.placement ∨ e.global_phase = Phase.movement)

/-- `Inv0` together with piece conservation: for each player, hand plus
on-board count plus the pieces lost to enemy captures (the ghost audit
counters of `runStep`) is 9. -/
def Inv (e : Env) (c1 cm1 : Nat) : Prop :=
  Inv0 e ∧
  e.pieces_in_hand.get 1 + e.pieces_on_board.get 1 + (c1 : Int) = 9 ∧
  e.pieces_in_hand.get (-1) + e.pieces_on_board.get (-1) + (cm1 : Int) = 9

/-- A full legal placement phase: player 1 places on
4,7,9,10,12,14,15,18,23 (no mill ever), player -1 places on
0,1,3,5,6,8,16,22 and finally 2, completing the mill 0-1-2 with the
18th and last placement. -/
def c7trace : List Action :=
  [Action.place 4, Action.place 0, Action.place 7, Action.place 1,
   Action.place 9, Action.place 3, Action.place 10, Action.place 5,
   Action.place 12, Action.place 6, Action.place 14, Action.place 8,
   Action.place 15, Action.place 16, Action.place 18, Action.place 22,
   Action.place 23, Action.place 2]

/-- A placement-phase position whose next player has an empty hand
while empty cells remain (player 1 on cell 0, player -1 on cell 1,
hands 2 and 0). -/
def c6env : Env where
  board := [1, -1, 0, 0, 0, 0, 0, 0, 0, 0, 0, 0, 0, 0, 0, 0, 0, 0, 0, 0, 0, 0, 0, 0]
  global_phase := Phase.placement
  player_phase := { pos := Phase.placement, neg := Phase.placement }
  current_player := 1
  pieces_in_hand := { pos := 2, neg := 0 }
  pieces_on_board := { pos := 1, neg := 1 }
  winner := none
  move_count := 10
  last_mill_formed := false
  last_capture := false

/-- A movement-phase position in which player 1 moving 23 to 14
blockades player -1 (cells 0,1,2,5) completely, with the move counter
already at 200. -/
def c1env : Env where
  board := [-1, -1, -1, 0, 1, -1, 0, 0, 0, 1, 0, 0, 0, 1, 0, 0, 0, 0, 0, 0, 0, 0, 0, 1]
  global_phase := Phase.movement
  player_phase := { pos := Phase.movement, neg := Phase.movement }
  current_player := 1
  pieces_in_hand := { pos := 0, neg := 0 }
  pieces_on_board := { pos := 4, neg := 4 }
  winner := none
  move_count := 200
  last_mill_formed := false
  last_capture := false

/-- The position of `c1env` with the move counter at 50 instead. -/
def c1wenv : Env where
  board := [-1, -1, -1, 0, 1, -1, 0, 0, 0, 1, 0, 0, 0, 1, 0, 0, 0, 0, 0, 0, 0, 0, 0, 1]
  global_phase := Phase.movement
  player_phase := { pos := Phase.movement, neg := Phase.movement }
  current_player := 1
  pieces_in_hand := { pos := 0, neg := 0 }
  pieces_on_board := { pos := 4, neg := 4 }
  winner := none
  move_count := 50
  last_mill_formed := false
  last_capture := false

/-- A movement-phase position in which player 1 capturing at cell 4
drops player -1 to 2 pieces, with the move counter already at 200. -/
def c8env : Env where
  board := [-1, -1, 0, 0, -1, 0, 0, 0, 0, 1, 1, 1, 1, 0, 0, 0, 0, 0, 0, 0, 0, 0, 0, 0]
  global_phase := Phase.movement
  player_phase := { pos := Phase.movement, neg := Phase.movement }
  current_player := 1
  pieces_in_hand := { pos := 0, neg := 0 }
  pieces_on_board := { pos := 4, neg := 3 }
  winner := none
  move_count := 200
  last_mill_formed := false
  last_capture := false

/-- The position of `c8env` with the move counter at 50 instead. -/
def c8wenv : Env where
  board := [-1, -1, 0, 0, -1, 0, 0, 0, 0, 1, 1, 1, 1, 0, 0, 0, 0, 0, 0, 0, 0, 0, 0, 0]
  global_phase := Phase.movement
  player_phase := { pos := Phase.movement, neg := Phase.movement }
  current_player := 1
  pieces_in_hand := { pos := 0, neg := 0 }
  pieces_on_board := { pos := 4, neg := 3 }
  winner := none
  move_count := 50
  last_mill_formed := false
  last_capture := false

/-- A movement-phase position at move count 199 in which player 1
moving 14 to 2 completes the mill 0-1-2 with captures available. -/
def c10env : Env where
  board := [1, 1, 0, 0, 0, -1, -1, -1, 0, 0, 0, 0, 0, 0, 1, 0, 0, 0, 0, 0, 0, 1, 0, -1]
  global_phase := Phase.movement
  player_phase := { pos := Phase.movement, neg := Phase.movement }
  current_player := 1
  pieces_in_hand := { pos := 0, neg := 0 }
  pieces_on_board := { pos := 4, neg := 4 }
  winner := none
  move_count := 199
  last_mill_formed := false
  last_capture := false

/-! ## Lemmas and claim theorems -/

/-! ## Helper lemmas -/

-- ## membership characterizations

theorem mem_valid_place (e : Env) (pos : Nat) :
    Action.place pos ∈ get_valid_actions e ↔
      e.player_phase.get e.current_player = Phase.placement ∧
      e.pieces_in_hand.get e.current_player > 0 ∧
      pos < BOARD_POSITIONS ∧ e.board.getD pos 0 = 0 := by
  unfold get_valid_actions
  rcases h : e.player_phase.get e.current_player <;>
    simp [h, List.mem_filterMap, List.mem_flatMap, List.mem_range] <;>
    split_ifs <;>
    simp_all [List.mem_filterMap, List.mem_range]

theorem not_mem_valid_capture (e : Env) (pos : Nat) :
    Action.capture pos ∉ get_valid_actions e := by
  unfold get_valid_actions
  rcases h : e.player_phase.get e.current_player <;>
    simp [h, List.mem_filterMap, List.mem_flatMap, List.mem_range] <;>
    split_ifs <;>
    simp_all [List.mem_filterMap, List.mem_range]

theorem mem_valid_move (e : Env) (f t : Nat) :
    Action.move f t ∈ get_valid_actions e ↔
      f < BOARD_POSITIONS ∧ e.board.getD f 0 = e.current_player ∧
      e.board.getD t 0 = 0 ∧
      ((e.player_phase.get e.current_player = Phase.movement ∧ t ∈ ADJACENCY f) ∨
       (e.player_phase.get e.current_player = Phase.flying ∧ t < BOARD_POSITIONS)) := by
  unfold get_valid_actions
  rcases h : e.player_phase.get e.current_player
  · simp [List.mem_filterMap, List.mem_range]
  · simp [List.mem_flatMap, List.mem_filterMap, List.mem_range]
    constructor
    · rintro ⟨a, ha, hb, b, hm, hz, rfl, rfl⟩
      exact ⟨ha, hb, hz, hm⟩
    · rintro ⟨ha, hb, hz, hm⟩
      exact ⟨f, ha, hb, t, hm, hz, rfl, rfl⟩
  · simp [List.mem_flatMap, List.mem_filterMap, List.mem_range]
    constructor
    · rintro ⟨a, ha, hb, b, hm, hz, rfl, rfl⟩
      exact ⟨ha, hb, hz, hm⟩
    · rintro ⟨ha, hb, hz, hm⟩
      exact ⟨f, ha, hb, t, hm, hz, rfl, rfl⟩

theorem mem_valid_capture (e : Env) (pos : Nat) :
    Action.capture pos ∈ get_valid_capture_actions e ↔
      pos < BOARD_POSITIONS ∧ e.board.getD pos 0 = -e.current_player ∧
      (is_in_mill e.board pos (-e.current_player) = false ∨
        all_in_mills e.board (-e.current_player) = true) := by
  unfold get_valid_capture_actions
  simp [List.mem_filterMap, List.mem_range]

theorem not_mem_capture_place (e : Env) (pos : Nat) :
    Action.place pos ∉ get_valid_capture_actions e := by
  unfold get_valid_capture_actions
  simp [List.mem_filterMap, List.mem_range]

theorem not_mem_capture_move (e : Env) (f t : Nat) :
    Action.move f t ∉ get_valid_capture_actions e := by
  unfold get_valid_capture_actions
  simp [List.mem_filterMap, List.mem_range]

theorem adj_lt : ∀ f < 24, ∀ t ∈ ADJACENCY f, t < 24 := by decide

-- ## field lemmas

theorem updateGlobalPhase_fields (e : Env) :
    (updateGlobalPhase e).board = e.board ∧
    (updateGlobalPhase e).pieces_in_hand = e.pieces_in_hand ∧
    (updateGlobalPhase e).pieces_on_board = e.pieces_on_board ∧
    (updateGlobalPhase e).current_player = e.current_player ∧
    (updateGlobalPhase e).move_count = e.move_count ∧
    (updateGlobalPhase e).winner = e.winner ∧
    (updateGlobalPhase e).last_mill_formed = e.last_mill_formed ∧
    (updateGlobalPhase e).last_capture = e.last_capture := by
  unfold updateGlobalPhase
  split_ifs <;> exact ⟨rfl, rfl, rfl, rfl, rfl, rfl, rfl, rfl⟩

theorem updateFlying_fields (e : Env) (p : Int) :
    (updateFlying e p).board = e.board ∧
    (updateFlying e p).global_phase = e.global_phase ∧
    (updateFlying e p).pieces_in_hand = e.pieces_in_hand ∧
    (updateFlying e p).pieces_on_board = e.pieces_on_board ∧
    (updateFlying e p).current_player = e.current_player ∧
    (updateFlying e p).move_count = e.move_count ∧
    (updateFlying e p).winner = e.winner ∧
    (updateFlying e p).last_mill_formed = e.last_mill_formed ∧
    (updateFlying e p).last_capture = e.last_capture := by
  unfold updateFlying
  split_ifs <;> exact ⟨rfl, rfl, rfl, rfl, rfl, rfl, rfl, rfl, rfl⟩

theorem updatePhases_fields (e : Env) :
    (updatePhases e).board = e.board ∧
    (updatePhases e).pieces_in_hand = e.pieces_in_hand ∧
    (updatePhases e).pieces_on_board = e.pieces_on_board ∧
    (updatePhases e).current_player = e.current_player ∧
    (updatePhases e).move_count = e.move_count ∧
    (updatePhases e).winner = e.winner ∧
    (updatePhases e).last_mill_formed = e.last_mill_formed ∧
    (updatePhases e).last_capture = e.last_capture := by
  unfold updatePhases
  dsimp only
  split
  · refine ⟨?_, ?_, ?_, ?_, ?_, ?_, ?_, ?_⟩ <;>
      simp [updateFlying_fields, updateGlobalPhase_fields]
  · exact ⟨(updateGlobalPhase_fields e).1, (updateGlobalPhase_fields e).2.1,
      (updateGlobalPhase_fields e).2.2.1, (updateGlobalPhase_fields e).2.2.2.1,
      (updateGlobalPhase_fields e).2.2.2.2.1, (updateGlobalPhase_fields e).2.2.2.2.2.1,
      (updateGlobalPhase_fields e).2.2.2.2.2.2.1, (updateGlobalPhase_fields e).2.2.2.2.2.2.2⟩

theorem finishStep_env (e : Env) (a : Int) (r : Rat) :
    (finishStep e a r).env =
      { updatePhases e with winner :=
          if ((updatePhases e).move_count > 200 : Prop) then some 0
          else if (elimCond (updatePhases e) a || blockCond (updatePhases e) a) = true then some a
          else (updatePhases e).winner } := by
  unfold finishStep
  rcases Nat.decLt 200 (updatePhases e).move_count with h | h <;>
    simp [h]

theorem finishStep_done (e : Env) (a : Int) (r : Rat) :
    (finishStep e a r).done =
      (elimCond (updatePhases e) a || blockCond (updatePhases e) a ||
        decide ((updatePhases e).move_count > 200)) := rfl

theorem finishStep_info (e : Env) (a : Int) (r : Rat) :
    (finishStep e a r).info = Info.final e.last_mill_formed e.last_capture := by
  show Info.final (updatePhases e).last_mill_formed (updatePhases e).last_capture = _
  rw [(updatePhases_fields e).2.2.2.2.2.2.1, (updatePhases_fields e).2.2.2.2.2.2.2]

theorem get_valid_capture_actions_congr (e1 e2 : Env)
    (hb : e1.board = e2.board) (hp : e1.current_player = e2.current_player) :
    get_valid_capture_actions e1 = get_valid_capture_actions e2 := by
  unfold get_valid_capture_actions
  rw [hb, hp]

theorem finishStep_env_fields (x : Env) (a : Int) (r : Rat) :
    (finishStep x a r).env.board = x.board ∧
    (finishStep x a r).env.current_player = x.current_player ∧
    (finishStep x a r).env.pieces_in_hand = x.pieces_in_hand ∧
    (finishStep x a r).env.pieces_on_board = x.pieces_on_board ∧
    (finishStep x a r).env.move_count = x.move_count ∧
    (finishStep x a r).env.last_mill_formed = x.last_mill_formed ∧
    (finishStep x a r).env.last_capture = x.last_capture ∧
    (finishStep x a r).env.global_phase = (updatePhases x).global_phase ∧
    (finishStep x a r).env.player_phase = (updatePhases x).player_phase := by
  rw [finishStep_env]
  exact ⟨(updatePhases_fields x).1, (updatePhases_fields x).2.2.2.1,
    (updatePhases_fields x).2.1, (updatePhases_fields x).2.2.1,
    (updatePhases_fields x).2.2.2.2.1, (updatePhases_fields x).2.2.2.2.2.2.1,
    (updatePhases_fields x).2.2.2.2.2.2.2, rfl, rfl⟩

theorem is_in_mill_iff (b : List Int) (pos : Nat) (p : Int) :
    is_in_mill b pos p = true ↔ InCompleteMill b pos p := by
  simp [is_in_mill, InCompleteMill, List.any_eq_true, List.all_eq_true]

theorem all_in_mills_iff (b : List Int) (p : Int) :
    all_in_mills b p = true ↔
      ∀ q, q < BOARD_POSITIONS → b.getD q 0 = p → InCompleteMill b q p := by
  unfold all_in_mills
  simp only [List.all_eq_true, List.mem_range, Bool.or_eq_true, Bool.not_eq_true',
    beq_eq_false_iff_ne, ne_eq, is_in_mill_iff]
  constructor
  · intro h q hq hbp
    rcases h q hq with h1 | h1
    · exact absurd hbp h1
    · exact h1
  · intro h q hq
    by_cases hbp : b.getD q 0 = p
    · exact Or.inr (h q hq hbp)
    · exact Or.inl hbp

-- ## C2

/-- C2: a place or move action that completes a mill through the
just-placed or just-moved cell and for which at least one legal capture
exists returns the capture-owed info dictionary with the mill flag set
and leaves the current player unchanged; in every other case (no mill,
or a mill with zero legal captures) possession passes to the
opponent. -/
theorem claim_C2 (e : Env) :
    (∀ pos : Nat,
      ((is_in_mill (e.board.set pos e.current_player) pos e.current_player = true ∧
          get_valid_capture_actions
            { e with board := e.board.set pos e.current_player } ≠ []) →
        (step e (Action.place pos)).info = Info.needs_capture ∧
        (step e (Action.place pos)).env.last_mill_formed = true ∧
        (step e (Action.place pos)).env.current_player = e.current_player) ∧
      (¬(is_in_mill (e.board.set pos e.current_player) pos e.current_player = true ∧
          get_valid_capture_actions
            { e with board := e.board.set pos e.current_player } ≠ []) →
        (step e (Action.place pos)).env.current_player = -e.current_player)) ∧
    (∀ from_pos to_pos : Nat,
      ((is_in_mill ((e.board.set from_pos 0).set to_pos e.current_player) to_pos
            e.current_player = true ∧
          get_valid_capture_actions
            { e with board := (e.board.set from_pos 0).set to_pos e.current_player } ≠ []) →
        (step e (Action.move from_pos to_pos)).info = Info.needs_capture ∧
        (step e (Action.move from_pos to_pos)).env.last_mill_formed = true ∧
        (step e (Action.move from_pos to_pos)).env.current_player = e.current_player) ∧
      (¬(is_in_mill ((e.board.set from_pos 0).set to_pos e.current_player) to_pos
            e.current_player = true ∧
          get_valid_capture_actions
            { e with board := (e.board.set from_pos 0).set to_pos e.current_player } ≠ []) →
        (step e (Action.move from_pos to_pos)).env.current_player = -e.current_player)) := by
  constructor
  · intro pos
    constructor
    · rintro ⟨hm, hc⟩
      simp only [step]
      split_ifs with h1 h2
      · exact ⟨rfl, rfl, rfl⟩
      · exact absurd (List.length_pos.mpr hc) h2
      · exact absurd hm h1
    · intro hn
      simp only [step]
      split_ifs with h1 h2
      · exact absurd ⟨h1, List.length_pos.mp h2⟩ hn
      · exact ((finishStep_env_fields _ _ _).2.1).trans rfl
      · exact ((finishStep_env_fields _ _ _).2.1).trans rfl
  · intro from_pos to_pos
    constructor
    · rintro ⟨hm, hc⟩
      simp only [step]
      split_ifs with h1 h2
      · exact ⟨rfl, rfl, rfl⟩
      · exact absurd (List.length_pos.mpr hc) h2
      · exact absurd hm h1
    · intro hn
      simp only [step]
      split_ifs with h1 h2
      · exact absurd ⟨h1, List.length_pos.mp h2⟩ hn
      · exact ((finishStep_env_fields _ _ _).2.1).trans rfl
      · exact ((finishStep_env_fields _ _ _).2.1).trans rfl

/-- C2 witness: the specification scenario — the acting player holds
cells 0 and 1, the opponent holds cell 5, and placing at cell 2
completes the mill 0-1-2 with a capture available. -/
theorem claim_C2_witness :
    (is_in_mill (c2env.board.set 2 c2env.current_player) 2 c2env.current_player = true ∧
      get_valid_capture_actions
        { c2env with board := c2env.board.set 2 c2env.current_player } ≠ []) ∧
    (step c2env (Action.place 2)).info = Info.needs_capture ∧
    (step c2env (Action.place 2)).env.last_mill_formed = true ∧
    (step c2env (Action.place 2)).env.current_player = c2env.current_player :=
  ⟨⟨by decide, by decide⟩, ((claim_C2 c2env).1 2).1 ⟨by decide, by decide⟩⟩

-- ## C4

set_option maxRecDepth 4000 in
/-- C4: for every action drawn from the enumerated legal sets,
decoding the encoded index gives back the action, and the index lies in
the documented sub-range: places in [0,24), moves at
24 + from * 24 + to inside [24,600), captures in [600,624). -/
theorem claim_C4 (e : Env) (a : Action)
    (h : a ∈ get_valid_actions e ∨ a ∈ get_valid_capture_actions e) :
    index_to_action (action_to_index a) = a ∧
    (match a with
     | Action.place pos => action_to_index a = pos ∧ action_to_index a < 24
     | Action.move f t => action_to_index a = 24 + f * 24 + t ∧
         24 ≤ action_to_index a ∧ action_to_index a < 600
     | Action.capture pos => action_to_index a = 600 + pos ∧
         600 ≤ action_to_index a ∧ action_to_index a < 624) := by
  rcases a with pos | ⟨f, t⟩ | pos
  · have hb : pos < 24 := by
      rcases h with h | h
      · exact ((mem_valid_place e pos).mp h).2.2.1
      · exact absurd h (not_mem_capture_place e pos)
    refine ⟨?_, by simp [action_to_index, ACTION_PLACEMENT_START],
      by simp only [action_to_index, ACTION_PLACEMENT_START]; omega⟩
    simp only [index_to_action, action_to_index,
      ACTION_MOVEMENT_START, ACTION_CAPTURE_START, ACTION_PLACEMENT_START, BOARD_POSITIONS]
    rw [if_pos (by omega)]
    congr 1
    omega
  · have hb : f < 24 ∧ t < 24 := by
      rcases h with h | h
      · have hm := (mem_valid_move e f t).mp h
        refine ⟨hm.1, ?_⟩
        rcases hm.2.2.2 with ⟨_, hadj⟩ | ⟨_, ht⟩
        · exact adj_lt f hm.1 t hadj
        · exact ht
      · exact absurd h (not_mem_capture_move e f t)
    refine ⟨?_, by simp [action_to_index, ACTION_MOVEMENT_START, BOARD_POSITIONS],
      by simp only [action_to_index, ACTION_MOVEMENT_START, BOARD_POSITIONS]; omega,
      by simp only [action_to_index, ACTION_MOVEMENT_START, BOARD_POSITIONS]; omega⟩
    simp only [index_to_action, action_to_index,
      ACTION_MOVEMENT_START, ACTION_CAPTURE_START, ACTION_PLACEMENT_START, BOARD_POSITIONS]
    rw [if_neg (by omega)]
    rw [if_pos (by omega)]
    congr 1 <;> omega
  · have hb : pos < 24 := by
      rcases h with h | h
      · exact absurd h (not_mem_valid_capture e pos)
      · exact ((mem_valid_capture e pos).mp h).1
    refine ⟨?_, by simp [action_to_index, ACTION_CAPTURE_START],
      by simp only [action_to_index, ACTION_CAPTURE_START]; omega,
      by simp only [action_to_index, ACTION_CAPTURE_START]; omega⟩
    simp only [index_to_action, action_to_index,
      ACTION_MOVEMENT_START, ACTION_CAPTURE_START, ACTION_PLACEMENT_START, BOARD_POSITIONS]
    rw [if_neg (by omega)]
    rw [if_neg (by omega)]
    congr 1
    omega

/-- C4 witness: the round trip at the legal opening placement at
cell 0. -/
theorem claim_C4_witness :
    (Action.place 0 ∈ get_valid_actions resetEnv ∨
      Action.place 0 ∈ get_valid_capture_actions resetEnv) ∧
    index_to_action (action_to_index (Action.place 0)) = Action.place 0 :=
  ⟨Or.inl (by decide), (claim_C4 resetEnv (Action.place 0) (Or.inl (by decide))).1⟩

-- ## C3

/-- C3: a capture at a cell is legal exactly when the cell is an
opponent-owned board cell that lies in no complete opponent mill, or
every opponent-owned cell lies inside some complete opponent mill (the
protection is then waived).  The right-hand side is stated with the
specification-level predicate `InCompleteMill`. -/
theorem claim_C3 (e : Env) (pos : Nat) :
    Action.capture pos ∈ get_valid_capture_actions e ↔
      pos < BOARD_POSITIONS ∧ e.board.getD pos 0 = -e.current_player ∧
      (¬ InCompleteMill e.board pos (-e.current_player) ∨
        ∀ q, q < BOARD_POSITIONS → e.board.getD q 0 = -e.current_player →
          InCompleteMill e.board q (-e.current_player)) := by
  rw [mem_valid_capture]
  refine and_congr_right fun _ => and_congr_right fun _ => or_congr ?_ ?_
  · rw [← is_in_mill_iff]
    exact ⟨fun h => by simp [h], fun h => by simpa using h⟩
  · exact all_in_mills_iff e.board (-e.current_player)

theorem PlayerMap.get_set_same {α : Type} (m : PlayerMap α) (p : Int) (v : α) :
    (m.set p v).get p = v := by
  unfold PlayerMap.get PlayerMap.set
  split_ifs with h <;> simp [h]

theorem PlayerMap.get_set_other {α : Type} (m : PlayerMap α) (p q : Int) (v : α)
    (hp : p = 1 ∨ p = -1) (hq : q = 1 ∨ q = -1) (hne : p ≠ q) :
    (m.set p v).get q = m.get q := by
  unfold PlayerMap.get PlayerMap.set
  rcases hp with rfl | rfl <;> rcases hq with rfl | rfl <;> simp_all

theorem countPieces_nonneg (b : List Int) (p : Int) : 0 ≤ countPieces b p := by
  unfold countPieces
  positivity

theorem countPieces_set (b : List Int) (pos : Nat) (v p : Int) (h : pos < b.length) :
    countPieces (b.set pos v) p =
      countPieces b p + (if v = p then 1 else 0) - (if b.getD pos 0 = p then 1 else 0) := by
  induction b generalizing pos with
  | nil => simp at h
  | cons c rest ih =>
    cases pos with
    | zero =>
      simp only [List.set, countPieces, List.filter_cons, List.getD_cons_zero]
      split_ifs with h1 h2 h2 <;> simp_all [countPieces] <;> push_cast <;> omega
    | succ n =>
      have hn : n < rest.length := by simpa using h
      have := ih n hn
      simp only [List.set, countPieces, List.filter_cons, List.getD_cons_succ]
      split_ifs with h1 <;> simp_all [countPieces] <;> push_cast <;> omega

theorem countPieces_pos_exists (b : List Int) (p : Int) (h : 0 < countPieces b p) :
    ∃ pos, pos < b.length ∧ b.getD pos 0 = p := by
  unfold countPieces at h
  have hlen : 0 < (b.filter fun c => c == p).length := by exact_mod_cast h
  obtain ⟨x, hx⟩ := List.exists_mem_of_length_pos hlen
  have hmem := List.mem_filter.mp hx
  have hxp : x = p := by simpa using hmem.2
  obtain ⟨i, hi, hget⟩ := List.mem_iff_getElem.mp hmem.1
  refine ⟨i, hi, ?_⟩
  rw [List.getD_eq_getElem?_getD, List.getElem?_eq_getElem hi]
  simp [hget, hxp]

theorem getD_set_ne (b : List Int) (i j : Nat) (v : Int) (h : i ≠ j) :
    (b.set i v).getD j 0 = b.getD j 0 := by
  rw [List.getD_eq_getElem?_getD, List.getD_eq_getElem?_getD, List.getElem?_set_ne h]

theorem getD_set_self (b : List Int) (i : Nat) (v : Int) (h : i < b.length) :
    (b.set i v).getD i 0 = v := by
  rw [List.getD_eq_getElem?_getD, List.getElem?_set_self (by simpa using h)]
  rfl

theorem Inv0_resetEnv : Inv0 resetEnv := by
  constructor
  · exact Or.inl rfl
  refine ⟨by decide, by decide, by decide, ?_, Or.inl rfl⟩
  intro _
  exact ⟨rfl, rfl⟩

theorem Inv_resetEnv : Inv resetEnv 0 0 :=
  ⟨Inv0_resetEnv, by decide, by decide⟩

theorem Inv0_updateGlobalPhase (e : Env) (h : Inv0 e) : Inv0 (updateGlobalPhase e) := by
  unfold updateGlobalPhase
  split_ifs with h1 h2
  · refine ⟨h.1, h.2.1, h.2.2.1, h.2.2.2.1, ?_, Or.inr rfl⟩
    intro hx
    exact Phase.noConfusion hx
  · exact h
  · exact h

theorem Inv0_updateFlying (e : Env) (p : Int) (hgp : e.global_phase = Phase.movement)
    (h : Inv0 e) : Inv0 (updateFlying e p) := by
  unfold updateFlying
  split_ifs with h1
  · refine ⟨h.1, h.2.1, h.2.2.1, h.2.2.2.1, ?_, h.2.2.2.2.2⟩
    intro hx
    rw [hgp] at hx
    cases hx
  · exact h

theorem updateFlying_global (e : Env) (p : Int) :
    (updateFlying e p).global_phase = e.global_phase := (updateFlying_fields e p).2.1

theorem Inv0_updatePhases (e : Env) (h : Inv0 e) : Inv0 (updatePhases e) := by
  unfold updatePhases
  dsimp only
  split
  · next hgp =>
    exact Inv0_updateFlying _ _ (by rw [updateFlying_global]; exact hgp)
      (Inv0_updateFlying _ _ hgp (Inv0_updateGlobalPhase e h))
  · exact Inv0_updateGlobalPhase e h

theorem Inv0_finishStep (x : Env) (a : Int) (r : Rat) (h : Inv0 x) :
    Inv0 (finishStep x a r).env := by
  have hf := finishStep_env_fields x a r
  have hu := Inv0_updatePhases x h
  refine ⟨?_, ?_, ?_, ?_, ?_, ?_⟩
  · rw [hf.2.1]; exact h.1
  · rw [hf.1]; exact h.2.1
  · rw [hf.2.2.2.1, hf.1]; exact h.2.2.1
  · rw [hf.2.2.2.1, hf.1]; exact h.2.2.2.1
  · rw [hf.2.2.2.2.2.2.2.1, hf.2.2.2.2.2.2.2.2]; exact hu.2.2.2.2.1
  · rw [hf.2.2.2.2.2.2.2.1]; exact hu.2.2.2.2.2

theorem Inv_finishStep (x : Env) (a : Int) (r : Rat) (c1 cm1 : Nat) (h : Inv x c1 cm1) :
    Inv (finishStep x a r).env c1 cm1 := by
  have hf := finishStep_env_fields x a r
  refine ⟨Inv0_finishStep x a r h.1, ?_, ?_⟩
  · rw [hf.2.2.1, hf.2.2.2.1]; exact h.2.1
  · rw [hf.2.2.1, hf.2.2.2.1]; exact h.2.2

theorem Inv_build (b : List Int) (gp : Phase) (pp : PlayerMap Phase) (cp : Int)
    (pih pob : PlayerMap Int) (w : Option Int) (mc : Nat) (lm lc : Bool) (c1 cm1 : Nat)
    (h0 : cp = 1 ∨ cp = -1) (hlen : b.length = BOARD_POSITIONS)
    (hc1 : pob.get 1 = countPieces b 1) (hc2 : pob.get (-1) = countPieces b (-1))
    (hp3 : gp = Phase.placement → pp.pos = Phase.placement ∧ pp.neg = Phase.placement)
    (hp4 : gp = Phase.placement ∨ gp = Phase.movement)
    (hs1 : pih.get 1 + pob.get 1 + (c1 : Int) = 9)
    (hs2 : pih.get (-1) + pob.get (-1) + (cm1 : Int) = 9) :
    Inv ⟨b, gp, pp, cp, pih, pob, w, mc, lm, lc⟩ c1 cm1 :=
  ⟨⟨h0, hlen, hc1, hc2, hp3, hp4⟩, hs1, hs2⟩

theorem neg_player_cases (cp : Int) (h : cp = 1 ∨ cp = -1) : -cp = 1 ∨ -cp = -1 := by
  rcases h with h | h <;> rw [h] <;> [right; left] <;> norm_num

theorem Inv_place (e : Env) (c1 cm1 : Nat) (h : Inv e c1 cm1) (pos : Nat)
    (hpos : pos < BOARD_POSITIONS) (hempty : e.board.getD pos 0 = 0) :
    Inv (step e (Action.place pos)).env c1 cm1 := by
  obtain ⟨⟨h0, hlen, hc1, hc2, hp3, hp4⟩, hs1, hs2⟩ := h
  have hposlen : pos < e.board.length := by rw [hlen]; exact hpos
  have hblen : (e.board.set pos e.current_player).length = BOARD_POSITIONS := by
    rw [List.length_set]; exact hlen
  have hq1 : (e.pieces_on_board.set e.current_player
        (e.pieces_on_board.get e.current_player + 1)).get 1 =
      countPieces (e.board.set pos e.current_player) 1 := by
    rcases h0 with hcp | hcp <;> rw [hcp]
    · rw [PlayerMap.get_set_same, countPieces_set e.board pos 1 1 hposlen, hempty, hc1]
      norm_num
    · rw [PlayerMap.get_set_other _ _ _ _ (Or.inr rfl) (Or.inl rfl) (by norm_num),
        countPieces_set e.board pos (-1) 1 hposlen, hempty, hc1]
      norm_num
  have hq2 : (e.pieces_on_board.set e.current_player
        (e.pieces_on_board.get e.current_player + 1)).get (-1) =
      countPieces (e.board.set pos e.current_player) (-1) := by
    rcases h0 with hcp | hcp <;> rw [hcp]
    · rw [PlayerMap.get_set_other _ _ _ _ (Or.inl rfl) (Or.inr rfl) (by norm_num),
        countPieces_set e.board pos 1 (-1) hposlen, hempty, hc2]
      norm_num
    · rw [PlayerMap.get_set_same, countPieces_set e.board pos (-1) (-1) hposlen, hempty, hc2]
      norm_num
  have hsum1 : (e.pieces_in_hand.set e.current_player
        (e.pieces_in_hand.get e.current_player - 1)).get 1 +
      (e.pieces_on_board.set e.current_player
        (e.pieces_on_board.get e.current_player + 1)).get 1 + (c1 : Int) = 9 := by
    rcases h0 with hcp | hcp <;> rw [hcp]
    · rw [PlayerMap.get_set_same, PlayerMap.get_set_same]
      omega
    · rw [PlayerMap.get_set_other _ _ _ _ (Or.inr rfl) (Or.inl rfl) (by norm_num),
        PlayerMap.get_set_other _ _ _ _ (Or.inr rfl) (Or.inl rfl) (by norm_num)]
      omega
  have hsum2 : (e.pieces_in_hand.set e.current_player
        (e.pieces_in_hand.get e.current_player - 1)).get (-1) +
      (e.pieces_on_board.set e.current_player
        (e.pieces_on_board.get e.current_player + 1)).get (-1) + (cm1 : Int) = 9 := by
    rcases h0 with hcp | hcp <;> rw [hcp]
    · rw [PlayerMap.get_set_other _ _ _ _ (Or.inl rfl) (Or.inr rfl) (by norm_num),
        PlayerMap.get_set_other _ _ _ _ (Or.inl rfl) (Or.inr rfl) (by norm_num)]
      omega
    · rw [PlayerMap.get_set_same, PlayerMap.get_set_same]
      omega
  have hsw := neg_player_cases e.current_player h0
  simp only [step]
  split_ifs with hm hc
  · exact Inv_build _ _ _ _ _ _ _ _ _ _ _ _ h0 hblen hq1 hq2 hp3 hp4 hsum1 hsum2
  · exact Inv_finishStep _ _ _ _ _
      (Inv_build _ _ _ _ _ _ _ _ _ _ _ _ hsw hblen hq1 hq2 hp3 hp4 hsum1 hsum2)
  · exact Inv_finishStep _ _ _ _ _
      (Inv_build _ _ _ _ _ _ _ _ _ _ _ _ hsw hblen hq1 hq2 hp3 hp4 hsum1 hsum2)

theorem Inv_move (e : Env) (c1 cm1 : Nat) (h : Inv e c1 cm1) (f t : Nat)
    (hf : f < BOARD_POSITIONS) (ht : t < BOARD_POSITIONS)
    (hown : e.board.getD f 0 = e.current_player) (hempty : e.board.getD t 0 = 0) :
    Inv (step e (Action.move f t)).env c1 cm1 := by
  obtain ⟨⟨h0, hlen, hc1, hc2, hp3, hp4⟩, hs1, hs2⟩ := h
  have hflen : f < e.board.length := by rw [hlen]; exact hf
  have htlen1 : t < (e.board.set f 0).length := by rw [List.length_set, hlen]; exact ht
  have hne : t ≠ f := by
    intro hh
    rw [hh] at hempty
    rw [hempty] at hown
    rcases h0 with hcp | hcp <;> rw [hcp] at hown <;> norm_num at hown
  have hblen : ((e.board.set f 0).set t e.current_player).length = BOARD_POSITIONS := by
    rw [List.length_set, List.length_set]; exact hlen
  have hb1t : (e.board.set f 0).getD t 0 = 0 := by
    rw [getD_set_ne _ _ _ _ (Ne.symm hne)]; exact hempty
  have hcq : ∀ q : Int, q = 1 ∨ q = -1 →
      countPieces ((e.board.set f 0).set t e.current_player) q = countPieces e.board q := by
    intro q hq
    rw [countPieces_set _ _ _ _ htlen1, countPieces_set _ _ _ _ hflen, hb1t, hown]
    rcases h0 with hcp | hcp <;> rw [hcp] <;> rcases hq with rfl | rfl <;> norm_num
  have hq1 : e.pieces_on_board.get 1 =
      countPieces ((e.board.set f 0).set t e.current_player) 1 := by
    rw [hcq 1 (Or.inl rfl)]; exact hc1
  have hq2 : e.pieces_on_board.get (-1) =
      countPieces ((e.board.set f 0).set t e.current_player) (-1) := by
    rw [hcq (-1) (Or.inr rfl)]; exact hc2
  have hsw := neg_player_cases e.current_player h0
  simp only [step]
  split_ifs with hm hc
  · exact Inv_build _ _ _ _ _ _ _ _ _ _ _ _ h0 hblen hq1 hq2 hp3 hp4 hs1 hs2
  · exact Inv_finishStep _ _ _ _ _
      (Inv_build _ _ _ _ _ _ _ _ _ _ _ _ hsw hblen hq1 hq2 hp3 hp4 hs1 hs2)
  · exact Inv_finishStep _ _ _ _ _
      (Inv_build _ _ _ _ _ _ _ _ _ _ _ _ hsw hblen hq1 hq2 hp3 hp4 hs1 hs2)

theorem Inv_capture (e : Env) (c1 cm1 : Nat) (h : Inv e c1 cm1) (p : Nat)
    (hp : p < BOARD_POSITIONS) (hopp : e.board.getD p 0 = -e.current_player) :
    Inv (step e (Action.capture p)).env
      (if e.current_player = 1 then c1 else c1 + 1)
      (if e.current_player = 1 then cm1 + 1 else cm1) := by
  obtain ⟨⟨h0, hlen, hc1, hc2, hp3, hp4⟩, hs1, hs2⟩ := h
  have hplen : p < e.board.length := by rw [hlen]; exact hp
  have hblen : (e.board.set p 0).length = BOARD_POSITIONS := by
    rw [List.length_set]; exact hlen
  have hsw := neg_player_cases e.current_player h0
  rcases h0 with hcp | hcp
  · -- current player 1 captures a piece of player -1
    have hkey : -e.current_player = -1 := by rw [hcp]
    rw [hcp]
    norm_num
    apply Inv_finishStep
    apply Inv_build
    · exact hsw
    · exact hblen
    · show (e.pieces_on_board.set (-e.current_player)
          (e.pieces_on_board.get (-e.current_player) - 1)).get 1 =
        countPieces (e.board.set p 0) 1
      rw [hkey, countPieces_set _ _ _ _ hplen, hopp, hkey,
        PlayerMap.get_set_other _ _ _ _ (Or.inr rfl) (Or.inl rfl) (by norm_num), hc1]
      norm_num
    · show (e.pieces_on_board.set (-e.current_player)
          (e.pieces_on_board.get (-e.current_player) - 1)).get (-1) =
        countPieces (e.board.set p 0) (-1)
      rw [hkey, countPieces_set _ _ _ _ hplen, hopp, hkey,
        PlayerMap.get_set_same, hc2]
      norm_num
    · exact hp3
    · exact hp4
    · show e.pieces_in_hand.get 1 + (e.pieces_on_board.set (-e.current_player)
          (e.pieces_on_board.get (-e.current_player) - 1)).get 1 + (c1 : Int) = 9
      rw [hkey, PlayerMap.get_set_other _ _ _ _ (Or.inr rfl) (Or.inl rfl) (by norm_num)]
      exact hs1
    · show e.pieces_in_hand.get (-1) + (e.pieces_on_board.set (-e.current_player)
          (e.pieces_on_board.get (-e.current_player) - 1)).get (-1) +
        ((cm1 + 1 : Nat) : Int) = 9
      rw [hkey, PlayerMap.get_set_same]
      push_cast
      omega
  · -- current player -1 captures a piece of player 1
    have hkey : -e.current_player = 1 := by rw [hcp]; norm_num
    rw [hcp]
    norm_num
    apply Inv_finishStep
    apply Inv_build
    · exact hsw
    · exact hblen
    · show (e.pieces_on_board.set (-e.current_player)
          (e.pieces_on_board.get (-e.current_player) - 1)).get 1 =
        countPieces (e.board.set p 0) 1
      rw [hkey, countPieces_set _ _ _ _ hplen, hopp, hkey,
        PlayerMap.get_set_same, hc1]
      norm_num
    · show (e.pieces_on_board.set (-e.current_player)
          (e.pieces_on_board.get (-e.current_player) - 1)).get (-1) =
        countPieces (e.board.set p 0) (-1)
      rw [hkey, countPieces_set _ _ _ _ hplen, hopp, hkey,
        PlayerMap.get_set_other _ _ _ _ (Or.inl rfl) (Or.inr rfl) (by norm_num), hc2]
      norm_num
    · exact hp3
    · exact hp4
    · show e.pieces_in_hand.get 1 + (e.pieces_on_board.set (-e.current_player)
          (e.pieces_on_board.get (-e.current_player) - 1)).get 1 +
        ((c1 + 1 : Nat) : Int) = 9
      rw [hkey, PlayerMap.get_set_same]
      push_cast
      omega
    · show e.pieces_in_hand.get (-1) + (e.pieces_on_board.set (-e.current_player)
          (e.pieces_on_board.get (-e.current_player) - 1)).get (-1) + (cm1 : Int) = 9
      rw [hkey, PlayerMap.get_set_other _ _ _ _ (Or.inl rfl) (Or.inr rfl) (by norm_num)]
      exact hs2

theorem step_Inv (e : Env) (c1 cm1 : Nat) (a : Action) (h : Inv e c1 cm1)
    (hmem : a ∈ get_valid_actions e ∨ a ∈ get_valid_capture_actions e) :
    ∃ d1 d2, Inv (step e a).env d1 d2 := by
  rcases a with pos | ⟨f, t⟩ | p
  · have hp : Action.place pos ∈ get_valid_actions e := by
      rcases hmem with hmem | hmem
      · exact hmem
      · exact absurd hmem (not_mem_capture_place e pos)
    obtain ⟨_, _, hlt, hempty⟩ := (mem_valid_place e pos).mp hp
    exact ⟨c1, cm1, Inv_place e c1 cm1 h pos hlt hempty⟩
  · have hm : Action.move f t ∈ get_valid_actions e := by
      rcases hmem with hmem | hmem
      · exact hmem
      · exact absurd hmem (not_mem_capture_move e f t)
    obtain ⟨hflt, hown, hempty, hrest⟩ := (mem_valid_move e f t).mp hm
    have htlt : t < BOARD_POSITIONS := by
      rcases hrest with ⟨_, hadj⟩ | ⟨_, htlt⟩
      · exact adj_lt f hflt t hadj
      · exact htlt
    exact ⟨c1, cm1, Inv_move e c1 cm1 h f t hflt htlt hown hempty⟩
  · have hc : Action.capture p ∈ get_valid_capture_actions e := by
      rcases hmem with hmem | hmem
      · exact absurd hmem (not_mem_valid_capture e p)
      · exact hmem
    obtain ⟨hplt, hopp, _⟩ := (mem_valid_capture e p).mp hc
    exact ⟨_, _, Inv_capture e c1 cm1 h p hplt hopp⟩

theorem runStep_inv (e : Env) (owed : Bool) (c1 cm1 : Nat) (a : Action)
    (out : Env × Bool × Nat × Nat) (hrs : runStep e owed c1 cm1 a = some out)
    (h : Inv e c1 cm1) : Inv out.1 out.2.2.1 out.2.2.2 := by
  unfold runStep at hrs
  rcases Decidable.em (e.winner = none ∧
      a ∈ (if owed then get_valid_capture_actions e else get_valid_actions e)) with
    hcond | hcond
  · rw [if_pos hcond] at hrs
    obtain ⟨hw, hmem⟩ := hcond
    have hmem2 : a ∈ get_valid_actions e ∨ a ∈ get_valid_capture_actions e := by
      cases owed
      · simp only [Bool.false_eq_true, if_false] at hmem
        exact Or.inl hmem
      · simp only [if_true] at hmem
        exact Or.inr hmem
    rcases a with pos | ⟨f, t⟩ | p
    · injection hrs with hrs
      subst hrs
      have hp : Action.place pos ∈ get_valid_actions e := by
        rcases hmem2 with hh | hh
        · exact hh
        · exact absurd hh (not_mem_capture_place e pos)
      obtain ⟨_, _, hlt, hempty⟩ := (mem_valid_place e pos).mp hp
      exact Inv_place e c1 cm1 h pos hlt hempty
    · injection hrs with hrs
      subst hrs
      have hm : Action.move f t ∈ get_valid_actions e := by
        rcases hmem2 with hh | hh
        · exact hh
        · exact absurd hh (not_mem_capture_move e f t)
      obtain ⟨hflt, hown, hempty, hrest⟩ := (mem_valid_move e f t).mp hm
      have htlt : t < BOARD_POSITIONS := by
        rcases hrest with ⟨_, hadj⟩ | ⟨_, htlt⟩
        · exact adj_lt f hflt t hadj
        · exact htlt
      exact Inv_move e c1 cm1 h f t hflt htlt hown hempty
    · have hcm : Action.capture p ∈ get_valid_capture_actions e := by
        rcases hmem2 with hh | hh
        · exact absurd hh (not_mem_valid_capture e p)
        · exact hh
      obtain ⟨hplt, hopp, _⟩ := (mem_valid_capture e p).mp hcm
      have hcap := Inv_capture e c1 cm1 h p hplt hopp
      dsimp only at hrs
      rcases Decidable.em (e.current_player = 1) with hcp | hcp
      · rw [if_pos hcp] at hrs
        injection hrs with hrs
        subst hrs
        rw [if_pos hcp, if_pos hcp] at hcap
        exact hcap
      · rw [if_neg hcp] at hrs
        injection hrs with hrs
        subst hrs
        rw [if_neg hcp, if_neg hcp] at hcap
        exact hcap
  · rw [if_neg hcond] at hrs
    exact absurd hrs (by simp)

theorem runFrom_inv : ∀ (acts : List Action) (e : Env) (owed : Bool) (c1 cm1 : Nat)
    (out : Env × Bool × Nat × Nat), runFrom e owed c1 cm1 acts = some out →
    Inv e c1 cm1 → Inv out.1 out.2.2.1 out.2.2.2 := by
  intro acts
  induction acts with
  | nil =>
    intro e owed c1 cm1 out h hInv
    unfold runFrom at h
    simp only [Option.some.injEq] at h
    subst h
    exact hInv
  | cons a rest ih =>
    intro e owed c1 cm1 out h hInv
    unfold runFrom at h
    rcases hrs : runStep e owed c1 cm1 a with _ | ⟨e2, owed2, c12, cm12⟩
    · rw [hrs] at h
      exact absurd h (by simp)
    · rw [hrs] at h
      exact ih e2 owed2 c12 cm12 out h (runStep_inv e owed c1 cm1 a _ hrs hInv)

theorem run_inv (acts : List Action) (out : Env × Bool × Nat × Nat)
    (h : run acts = some out) : Inv out.1 out.2.2.1 out.2.2.2 :=
  runFrom_inv acts resetEnv false 0 0 out h Inv_resetEnv

theorem PlayerMap.get_one {α : Type} (m : PlayerMap α) : m.get 1 = m.pos := by
  unfold PlayerMap.get
  simp

theorem PlayerMap.get_negone {α : Type} (m : PlayerMap α) : m.get (-1) = m.neg := by
  unfold PlayerMap.get
  norm_num

-- field-delta lemmas used by the conservation claim

theorem step_place_pieces (e : Env) (pos : Nat) :
    (step e (Action.place pos)).env.pieces_in_hand =
      e.pieces_in_hand.set e.current_player (e.pieces_in_hand.get e.current_player - 1) ∧
    (step e (Action.place pos)).env.pieces_on_board =
      e.pieces_on_board.set e.current_player (e.pieces_on_board.get e.current_player + 1) := by
  simp only [step]
  split_ifs with hm hc
  · exact ⟨rfl, rfl⟩
  · exact ⟨(finishStep_env_fields _ _ _).2.2.1.trans rfl,
      (finishStep_env_fields _ _ _).2.2.2.1.trans rfl⟩
  · exact ⟨(finishStep_env_fields _ _ _).2.2.1.trans rfl,
      (finishStep_env_fields _ _ _).2.2.2.1.trans rfl⟩

theorem step_move_pieces (e : Env) (f t : Nat) :
    (step e (Action.move f t)).env.pieces_in_hand = e.pieces_in_hand ∧
    (step e (Action.move f t)).env.pieces_on_board = e.pieces_on_board := by
  simp only [step]
  split_ifs with hm hc
  · exact ⟨rfl, rfl⟩
  · exact ⟨(finishStep_env_fields _ _ _).2.2.1.trans rfl,
      (finishStep_env_fields _ _ _).2.2.2.1.trans rfl⟩
  · exact ⟨(finishStep_env_fields _ _ _).2.2.1.trans rfl,
      (finishStep_env_fields _ _ _).2.2.2.1.trans rfl⟩

theorem step_capture_pieces (e : Env) (p : Nat) :
    (step e (Action.capture p)).env.pieces_in_hand = e.pieces_in_hand ∧
    (step e (Action.capture p)).env.pieces_on_board =
      e.pieces_on_board.set (-e.current_player)
        (e.pieces_on_board.get (-e.current_player) - 1) :=
  ⟨(finishStep_env_fields _ _ _).2.2.1.trans rfl,
    (finishStep_env_fields _ _ _).2.2.2.1.trans rfl⟩

/-- C5: piece conservation along every driver-reachable state, and the
exact per-action bookkeeping deltas. -/
theorem claim_C5 :
    (∀ (acts : List Action) (out : Env × Bool × Nat × Nat), run acts = some out →
      out.1.pieces_in_hand.get 1 + out.1.pieces_on_board.get 1 + (out.2.2.1 : Int) = 9 ∧
      out.1.pieces_in_hand.get (-1) + out.1.pieces_on_board.get (-1) + (out.2.2.2 : Int) = 9) ∧
    (∀ (e : Env) (pos : Nat), e.current_player = 1 ∨ e.current_player = -1 →
      (step e (Action.place pos)).env.pieces_in_hand.get e.current_player =
        e.pieces_in_hand.get e.current_player - 1 ∧
      (step e (Action.place pos)).env.pieces_on_board.get e.current_player =
        e.pieces_on_board.get e.current_player + 1 ∧
      (step e (Action.place pos)).env.pieces_in_hand.get (-e.current_player) =
        e.pieces_in_hand.get (-e.current_player) ∧
      (step e (Action.place pos)).env.pieces_on_board.get (-e.current_player) =
        e.pieces_on_board.get (-e.current_player)) ∧
    (∀ (e : Env) (f t : Nat),
      (step e (Action.move f t)).env.pieces_in_hand = e.pieces_in_hand ∧
      (step e (Action.move f t)).env.pieces_on_board = e.pieces_on_board) ∧
    (∀ (e : Env) (p : Nat), e.current_player = 1 ∨ e.current_player = -1 →
      (step e (Action.capture p)).env.pieces_in_hand = e.pieces_in_hand ∧
      (step e (Action.capture p)).env.pieces_on_board.get (-e.current_player) =
        e.pieces_on_board.get (-e.current_player) - 1 ∧
      (step e (Action.capture p)).env.pieces_on_board.get e.current_player =
        e.pieces_on_board.get e.current_player) := by
  refine ⟨?_, ?_, ?_, ?_⟩
  · intro acts out h
    have hi := run_inv acts out h
    exact ⟨hi.2.1, hi.2.2⟩
  · intro e pos h0
    obtain ⟨hh, hb⟩ := step_place_pieces e pos
    have hne : -e.current_player ≠ e.current_player := by
      rcases h0 with hcp | hcp <;> rw [hcp] <;> norm_num
    refine ⟨?_, ?_, ?_, ?_⟩
    · rw [hh, PlayerMap.get_set_same]
    · rw [hb, PlayerMap.get_set_same]
    · rw [hh, PlayerMap.get_set_other _ _ _ _ h0 (neg_player_cases _ h0) (Ne.symm hne)]
    · rw [hb, PlayerMap.get_set_other _ _ _ _ h0 (neg_player_cases _ h0) (Ne.symm hne)]
  · intro e f t
    exact step_move_pieces e f t
  · intro e p h0
    obtain ⟨hh, hb⟩ := step_capture_pieces e p
    have hne : -e.current_player ≠ e.current_player := by
      rcases h0 with hcp | hcp <;> rw [hcp] <;> norm_num
    refine ⟨hh, ?_, ?_⟩
    · rw [hb, PlayerMap.get_set_same]
    · rw [hb, PlayerMap.get_set_other _ _ _ _ (neg_player_cases _ h0) h0 hne]

/-- C5 witness: conservation at the fresh session and the hand
decrement of the opening placement. -/
theorem claim_C5_witness :
    run [] = some (resetEnv, false, 0, 0) ∧
    (resetEnv.current_player = 1 ∨ resetEnv.current_player = -1) ∧
    resetEnv.pieces_in_hand.get 1 + resetEnv.pieces_on_board.get 1 + ((0 : Nat) : Int) = 9 ∧
    (step resetEnv (Action.place 0)).env.pieces_in_hand.get resetEnv.current_player =
      resetEnv.pieces_in_hand.get resetEnv.current_player - 1 :=
  ⟨rfl, Or.inl rfl, (claim_C5.1 [] (resetEnv, false, 0, 0) rfl).1,
    (claim_C5.2.1 resetEnv 0 (Or.inl rfl)).1⟩

theorem updateGlobalPhase_movement_iff (x : Env) :
    (updateGlobalPhase x).global_phase = Phase.movement ↔
      (x.global_phase = Phase.movement ∨
        (x.global_phase = Phase.placement ∧
          x.pieces_in_hand.get 1 = 0 ∧ x.pieces_in_hand.get (-1) = 0)) := by
  unfold updateGlobalPhase
  split_ifs with h1 h2
  · simp [h1, h2]
  · simp_all
  · simp_all

theorem updatePhases_global (x : Env) :
    (updatePhases x).global_phase = (updateGlobalPhase x).global_phase := by
  unfold updatePhases
  dsimp only
  split
  · rw [updateFlying_global, updateFlying_global]
  · rfl

theorem updateGlobalPhase_hands (x : Env) :
    (updateGlobalPhase x).pieces_in_hand = x.pieces_in_hand :=
  (updateGlobalPhase_fields x).2.1

theorem updateFlying_preserves_flying (y : Env) (p q : Int)
    (hp : p = 1 ∨ p = -1) (hq : q = 1 ∨ q = -1)
    (h : y.player_phase.get q = Phase.flying) :
    (updateFlying y p).player_phase.get q = Phase.flying := by
  unfold updateFlying
  split_ifs with h3
  · rcases Decidable.em (q = p) with hqp | hqp
    · rw [hqp, PlayerMap.get_set_same]
    · rw [PlayerMap.get_set_other _ _ _ _ hp hq (fun hh => hqp hh.symm)]
      exact h
  · exact h

theorem updatePhases_flying_mono (x : Env) (q : Int) (hq : q = 1 ∨ q = -1)
    (hp3 : x.global_phase = Phase.placement →
      x.player_phase.pos = Phase.placement ∧ x.player_phase.neg = Phase.placement)
    (hfly : x.player_phase.get q = Phase.flying) :
    (updatePhases x).player_phase.get q = Phase.flying := by
  have hnp : x.global_phase ≠ Phase.placement := by
    intro hgp
    have hpp := hp3 hgp
    rcases hq with rfl | rfl
    · rw [PlayerMap.get_one, hpp.1] at hfly
      cases hfly
    · rw [PlayerMap.get_negone, hpp.2] at hfly
      cases hfly
  have hug : updateGlobalPhase x = x := by
    unfold updateGlobalPhase
    rw [if_neg hnp]
  unfold updatePhases
  dsimp only
  rw [hug]
  split_ifs with h1
  · exact updateFlying_preserves_flying _ _ _ (Or.inr rfl) hq
      (updateFlying_preserves_flying _ _ _ (Or.inl rfl) hq hfly)
  · exact hfly

theorem C7_core (e x : Env) (ap : Int) (r : Rat)
    (hg : x.global_phase = e.global_phase)
    (hpp : x.player_phase = e.player_phase)
    (hp3 : e.global_phase = Phase.placement →
      e.player_phase.pos = Phase.placement ∧ e.player_phase.neg = Phase.placement)
    (hp4 : e.global_phase = Phase.placement ∨ e.global_phase = Phase.movement) :
    ((finishStep x ap r).env.global_phase = Phase.movement ↔
      (e.global_phase = Phase.movement ∨
        ((finishStep x ap r).env.pieces_in_hand.get 1 = 0 ∧
         (finishStep x ap r).env.pieces_in_hand.get (-1) = 0))) ∧
    (e.global_phase = Phase.movement →
      (finishStep x ap r).env.global_phase = Phase.movement) ∧
    (∀ q : Int, (q = 1 ∨ q = -1) → e.player_phase.get q = Phase.flying →
      (finishStep x ap r).env.player_phase.get q = Phase.flying) := by
  have hf := finishStep_env_fields x ap r
  have hgl : (finishStep x ap r).env.global_phase = (updateGlobalPhase x).global_phase := by
    rw [hf.2.2.2.2.2.2.2.1, updatePhases_global]
  have hhands : (finishStep x ap r).env.pieces_in_hand = x.pieces_in_hand := hf.2.2.1
  refine ⟨?_, ?_, ?_⟩
  · rw [hgl, hhands, updateGlobalPhase_movement_iff, hg]
    constructor
    · rintro (h | h)
      · exact Or.inl h
      · exact Or.inr h.2
    · rintro (h | h)
      · exact Or.inl h
      · rcases hp4 with h4 | h4
        · exact Or.inr ⟨h4, h⟩
        · exact Or.inl h4
  · intro hmv
    rw [hgl, updateGlobalPhase_movement_iff, hg]
    exact Or.inl hmv
  · intro q hq hfly
    rw [hf.2.2.2.2.2.2.2.2]
    exact updatePhases_flying_mono x q hq
      (by rw [hg, hpp]; exact hp3) (by rw [hpp]; exact hfly)

/-- C7 (counterexample): a legal 18-placement game from a fresh session
in which the 18th placement empties the second hand AND completes the
mill 0-1-2 with a capture available.  That step ends with both hands
zero, yet the global phase is still `placement` (capture owed): the
transition does not happen on the first step after which both hands are
zero, but only at the end of the owed capture step. -/
theorem claim_C7_counterexample :
    (run c7trace).map (fun o =>
        (o.2.1, o.1.global_phase, o.1.pieces_in_hand.get 1, o.1.pieces_in_hand.get (-1))) =
      some (true, Phase.placement, 0, 0) := by
  decide

/-- C7 (amended): from any driver-reachable configuration, the global
phase never reverts from movement; a capture-owed step leaves it
unchanged; a completed step ends in the movement phase exactly when the
phase already was movement or both hands are zero at the step's end;
and a player phase equal to flying never reverts. -/
theorem claim_C7 (acts : List Action) (e : Env) (owed : Bool) (c1 cm1 : Nat)
    (hrun : run acts = some (e, owed, c1, cm1)) (a : Action)
    (hmem : a ∈ (if owed then get_valid_capture_actions e else get_valid_actions e)) :
    (e.global_phase = Phase.movement → (step e a).env.global_phase = Phase.movement) ∧
    ((step e a).info = Info.needs_capture →
      (step e a).env.global_phase = e.global_phase) ∧
    ((step e a).info ≠ Info.needs_capture →
      ((step e a).env.global_phase = Phase.movement ↔
        (e.global_phase = Phase.movement ∨
          ((step e a).env.pieces_in_hand.get 1 = 0 ∧
           (step e a).env.pieces_in_hand.get (-1) = 0)))) ∧
    (∀ q : Int, (q = 1 ∨ q = -1) → e.player_phase.get q = Phase.flying →
      (step e a).env.player_phase.get q = Phase.flying) := by
  have hi := run_inv acts (e, owed, c1, cm1) hrun
  obtain ⟨⟨h0, hlen, hc1, hc2, hp3, hp4⟩, hs1, hs2⟩ := hi
  rcases a with pos | ⟨f, t⟩ | p
  · simp only [step]
    split_ifs with hm hc
    · refine ⟨fun h => h, fun _ => rfl, fun hne => absurd rfl hne, fun q hq hfly => hfly⟩
    · refine ⟨(C7_core e _ _ _ (by rfl) (by rfl) hp3 hp4).2.1, ?_,
        fun _ => (C7_core e _ _ _ (by rfl) (by rfl) hp3 hp4).1,
        (C7_core e _ _ _ (by rfl) (by rfl) hp3 hp4).2.2⟩
      intro habs
      rw [finishStep_info] at habs
      exact Info.noConfusion habs
    · refine ⟨(C7_core e _ _ _ (by rfl) (by rfl) hp3 hp4).2.1, ?_,
        fun _ => (C7_core e _ _ _ (by rfl) (by rfl) hp3 hp4).1,
        (C7_core e _ _ _ (by rfl) (by rfl) hp3 hp4).2.2⟩
      intro habs
      rw [finishStep_info] at habs
      exact Info.noConfusion habs
  · simp only [step]
    split_ifs with hm hc
    · refine ⟨fun h => h, fun _ => rfl, fun hne => absurd rfl hne, fun q hq hfly => hfly⟩
    · refine ⟨(C7_core e _ _ _ (by rfl) (by rfl) hp3 hp4).2.1, ?_,
        fun _ => (C7_core e _ _ _ (by rfl) (by rfl) hp3 hp4).1,
        (C7_core e _ _ _ (by rfl) (by rfl) hp3 hp4).2.2⟩
      intro habs
      rw [finishStep_info] at habs
      exact Info.noConfusion habs
    · refine ⟨(C7_core e _ _ _ (by rfl) (by rfl) hp3 hp4).2.1, ?_,
        fun _ => (C7_core e _ _ _ (by rfl) (by rfl) hp3 hp4).1,
        (C7_core e _ _ _ (by rfl) (by rfl) hp3 hp4).2.2⟩
      intro habs
      rw [finishStep_info] at habs
      exact Info.noConfusion habs
  · simp only [step]
    refine ⟨(C7_core e _ _ _ (by rfl) (by rfl) hp3 hp4).2.1, ?_,
      fun _ => (C7_core e _ _ _ (by rfl) (by rfl) hp3 hp4).1,
      (C7_core e _ _ _ (by rfl) (by rfl) hp3 hp4).2.2⟩
    intro habs
    rw [finishStep_info] at habs
    exact Info.noConfusion habs

/-- C7 witness: the monotonicity conjunct instantiated at the opening
placement from a fresh session. -/
theorem claim_C7_witness :
    run [] = some (resetEnv, false, 0, 0) ∧
    Action.place 0 ∈
      (if (false : Bool) then get_valid_capture_actions resetEnv
       else get_valid_actions resetEnv) ∧
    (resetEnv.global_phase = Phase.movement →
      (step resetEnv (Action.place 0)).env.global_phase = Phase.movement) :=
  ⟨rfl, by decide, (claim_C7 [] resetEnv false 0 0 rfl (Action.place 0) (by decide)).1⟩

theorem hasMove_iff_valid (n : Env)
    (hfly : n.player_phase.get n.current_player = Phase.flying →
      ∃ pos, pos < BOARD_POSITIONS ∧ n.board.getD pos 0 = n.current_player) :
    (hasMove n n.current_player = false ↔ get_valid_actions n = []) := by
  unfold hasMove get_valid_actions
  rcases hph : n.player_phase.get n.current_player
  · -- placement
    rw [if_pos rfl]
    by_cases hh : n.pieces_in_hand.get n.current_player > 0
    · rw [if_pos hh, decide_eq_true hh, Bool.and_true,
        List.any_eq_false, List.filterMap_eq_nil_iff]
      constructor
      · intro h pos hpos
        rw [if_neg (by simpa using h pos hpos)]
      · intro h pos hpos
        by_cases hz : n.board.getD pos 0 = 0
        · have h2 := h pos hpos
          rw [if_pos hz] at h2
          cases h2
        · simpa using hz
    · rw [if_neg hh, decide_eq_false hh, Bool.and_false]
      simp
  · -- movement
    rw [if_neg (by simp), if_pos rfl,
      List.any_eq_false, List.flatMap_eq_nil_iff]
    constructor
    · intro h f hf
      by_cases hown : n.board.getD f 0 = n.current_player
      · rw [if_pos hown, List.filterMap_eq_nil_iff]
        intro t ht
        have h2 := h f hf
        rw [Bool.and_eq_true] at h2
        push_neg at h2
        by_cases hz : n.board.getD t 0 = 0
        · exfalso
          apply h2 (by simpa using hown)
          rw [List.any_eq_true]
          exact ⟨t, ht, by simpa using hz⟩
        · rw [if_neg hz]
      · rw [if_neg hown]
    · intro h f hf
      have h2 := h f hf
      rw [Bool.and_eq_true]
      push_neg
      intro hbeq
      have hown : n.board.getD f 0 = n.current_player := by simpa using hbeq
      rw [if_pos hown, List.filterMap_eq_nil_iff] at h2
      intro hany
      rw [List.any_eq_true] at hany
      obtain ⟨t, ht, htz⟩ := hany
      have := h2 t ht
      rw [if_pos (by simpa using htz)] at this
      cases this
  · -- flying
    rw [if_neg (by simp), if_neg (by simp),
      List.any_eq_false, List.flatMap_eq_nil_iff]
    constructor
    · intro h f hf
      by_cases hown : n.board.getD f 0 = n.current_player
      · rw [if_pos hown, List.filterMap_eq_nil_iff]
        intro t ht
        rw [if_neg (by simpa using h t ht)]
      · rw [if_neg hown]
    · intro h pos hpos
      obtain ⟨f0, hf0, hown0⟩ := hfly hph
      have h2 := h f0 (List.mem_range.mpr hf0)
      rw [if_pos hown0, List.filterMap_eq_nil_iff] at h2
      by_cases hz : n.board.getD pos 0 = 0
      · have := h2 pos hpos
        rw [if_pos hz] at this
        cases this
      · simpa using hz

theorem finishStep_env_elim (x : Env) (ap : Int) (r : Rat) :
    elimCond (finishStep x ap r).env ap = elimCond (updatePhases x) ap := rfl

theorem finishStep_env_block (x : Env) (ap : Int) (r : Rat) :
    blockCond (finishStep x ap r).env ap = blockCond (updatePhases x) ap := rfl

theorem finishStep_env_count (x : Env) (ap : Int) (r : Rat) :
    (finishStep x ap r).env.move_count = (updatePhases x).move_count := rfl

theorem finishStep_winner (x : Env) (ap : Int) (r : Rat) :
    (finishStep x ap r).env.winner =
      (if ((updatePhases x).move_count > 200 : Prop) then some 0
       else if (elimCond (updatePhases x) ap || blockCond (updatePhases x) ap) = true then
         some ap
       else x.winner) := by
  rw [finishStep_env]
  show (if ((updatePhases x).move_count > 200 : Prop) then some 0
    else if (elimCond (updatePhases x) ap || blockCond (updatePhases x) ap) = true then
      some ap
    else (updatePhases x).winner) = _
  rw [(updatePhases_fields x).2.2.2.2.2.1]

theorem step_final_facts (e : Env) (a : Action)
    (hnotowed : (step e a).info ≠ Info.needs_capture) :
    (step e a).env.current_player = -e.current_player ∧
    (step e a).env.move_count = e.move_count + 1 ∧
    (step e a).done = (elimCond (step e a).env e.current_player ||
      blockCond (step e a).env e.current_player ||
      decide ((step e a).env.move_count > 200)) ∧
    ((step e a).env.move_count > 200 → (step e a).env.winner = some 0) ∧
    ((step e a).env.move_count ≤ 200 →
      (elimCond (step e a).env e.current_player ||
        blockCond (step e a).env e.current_player) = true →
      (step e a).env.winner = some e.current_player) ∧
    ((step e a).env.move_count ≤ 200 →
      (elimCond (step e a).env e.current_player ||
        blockCond (step e a).env e.current_player) = false →
      (step e a).env.winner = e.winner) := by
  have core : ∀ (x : Env) (r : Rat),
      (finishStep x e.current_player r).env.move_count > 200 →
        (finishStep x e.current_player r).env.winner = some 0 := by
    intro x r hgt
    rw [finishStep_winner]
    rw [finishStep_env_count] at hgt
    rw [if_pos hgt]
  have core2 : ∀ (x : Env) (r : Rat),
      (finishStep x e.current_player r).env.move_count ≤ 200 →
      (elimCond (finishStep x e.current_player r).env e.current_player ||
        blockCond (finishStep x e.current_player r).env e.current_player) = true →
        (finishStep x e.current_player r).env.winner = some e.current_player := by
    intro x r hle hcond
    rw [finishStep_winner]
    rw [finishStep_env_count] at hle
    rw [finishStep_env_elim, finishStep_env_block] at hcond
    rw [if_neg (by omega), if_pos hcond]
  have core3 : ∀ (x : Env) (r : Rat),
      (finishStep x e.current_player r).env.move_count ≤ 200 →
      (elimCond (finishStep x e.current_player r).env e.current_player ||
        blockCond (finishStep x e.current_player r).env e.current_player) = false →
        (finishStep x e.current_player r).env.winner = x.winner := by
    intro x r hle hcond
    rw [finishStep_winner]
    rw [finishStep_env_count] at hle
    rw [finishStep_env_elim, finishStep_env_block] at hcond
    rw [if_neg (by omega), if_neg (by rw [hcond]; exact Bool.false_ne_true)]
  rcases a with pos | ⟨f, t⟩ | p
  · simp only [step]
    split_ifs with hm hc
    · exfalso
      apply hnotowed
      simp only [step]
      rw [if_pos hm, if_pos hc]
    · exact ⟨(finishStep_env_fields _ _ _).2.1.trans rfl,
        (finishStep_env_fields _ _ _).2.2.2.2.1.trans rfl,
        by simp only [finishStep_env_elim, finishStep_env_block, finishStep_env_count]
           exact finishStep_done _ _ _,
        core _ _, core2 _ _, fun h1 h2 => (core3 _ _ h1 h2).trans rfl⟩
    · exact ⟨(finishStep_env_fields _ _ _).2.1.trans rfl,
        (finishStep_env_fields _ _ _).2.2.2.2.1.trans rfl,
        by simp only [finishStep_env_elim, finishStep_env_block, finishStep_env_count]
           exact finishStep_done _ _ _,
        core _ _, core2 _ _, fun h1 h2 => (core3 _ _ h1 h2).trans rfl⟩
  · simp only [step]
    split_ifs with hm hc
    · exfalso
      apply hnotowed
      simp only [step]
      rw [if_pos hm, if_pos hc]
    · exact ⟨(finishStep_env_fields _ _ _).2.1.trans rfl,
        (finishStep_env_fields _ _ _).2.2.2.2.1.trans rfl,
        by simp only [finishStep_env_elim, finishStep_env_block, finishStep_env_count]
           exact finishStep_done _ _ _,
        core _ _, core2 _ _, fun h1 h2 => (core3 _ _ h1 h2).trans rfl⟩
    · exact ⟨(finishStep_env_fields _ _ _).2.1.trans rfl,
        (finishStep_env_fields _ _ _).2.2.2.2.1.trans rfl,
        by simp only [finishStep_env_elim, finishStep_env_block, finishStep_env_count]
           exact finishStep_done _ _ _,
        core _ _, core2 _ _, fun h1 h2 => (core3 _ _ h1 h2).trans rfl⟩
  · simp only [step]
    exact ⟨(finishStep_env_fields _ _ _).2.1.trans rfl,
      (finishStep_env_fields _ _ _).2.2.2.2.1.trans rfl,
      by simp only [finishStep_env_elim, finishStep_env_block, finishStep_env_count]
         exact finishStep_done _ _ _,
      core _ _, core2 _ _, fun h1 h2 => (core3 _ _ h1 h2).trans rfl⟩

/-- C6 (counterexample to the claim as stated): `c6env` has the next
player in the placement phase with an empty hand while empty cells
remain.  The claim says this does NOT count as blocked, but after the
acting player places at cell 2 (no mill) the engine declares a blockade
win for the acting player: the `has_move` test requires a non-empty
hand, so a hand-empty placement-phase player counts as blocked. -/
theorem claim_C6_counterexample :
    (step c6env (Action.place 2)).env.player_phase.get
        (step c6env (Action.place 2)).env.current_player = Phase.placement ∧
    (step c6env (Action.place 2)).env.pieces_in_hand.get
        (step c6env (Action.place 2)).env.current_player = 0 ∧
    (step c6env (Action.place 2)).env.board.getD 3 0 = 0 ∧
    (step c6env (Action.place 2)).done = true ∧
    (step c6env (Action.place 2)).env.winner = some 1 := by
  decide

/-- C6 (amended): on every completed (non-capture-owed) step from a
driver-reachable state on which elimination did not fire, the blockade
condition holds exactly when the player about to move has zero legal
actions (movement or flying with no destination, or placement with the
board full or the hand empty — the hand-empty case DOES count); when it
holds the step ends the game, with the acting player as winner when the
move counter is at most 200 and the move-limit draw overriding the
winner beyond 200. -/
theorem claim_C6 (acts : List Action) (e : Env) (owed : Bool) (c1 cm1 : Nat)
    (hrun : run acts = some (e, owed, c1, cm1)) (a : Action)
    (hmem : a ∈ (if owed then get_valid_capture_actions e else get_valid_actions e))
    (hnotowed : (step e a).info ≠ Info.needs_capture)
    (helim : elimCond (step e a).env e.current_player = false) :
    (blockCond (step e a).env e.current_player = true ↔
      get_valid_actions (step e a).env = []) ∧
    (blockCond (step e a).env e.current_player = true →
      (step e a).done = true ∧
      ((step e a).env.move_count ≤ 200 → (step e a).env.winner = some e.current_player) ∧
      ((step e a).env.move_count > 200 → (step e a).env.winner = some 0)) := by
  have hmem2 : a ∈ get_valid_actions e ∨ a ∈ get_valid_capture_actions e := by
    cases owed
    · simp only [Bool.false_eq_true, if_false] at hmem
      exact Or.inl hmem
    · simp only [if_true] at hmem
      exact Or.inr hmem
  have hi := run_inv acts (e, owed, c1, cm1) hrun
  obtain ⟨d1, d2, hInvN⟩ := step_Inv e c1 cm1 a hi hmem2
  obtain ⟨⟨h0n, hlenN, hcn1, hcn2, hp3n, hp4n⟩, hg1, hg2⟩ := hInvN
  have hsf := step_final_facts e a hnotowed
  have hblock : blockCond (step e a).env e.current_player =
      !hasMove (step e a).env (step e a).env.current_player := by
    unfold blockCond
    rw [helim]
    rfl
  have hflyhyp : (step e a).env.player_phase.get (step e a).env.current_player =
      Phase.flying →
      ∃ pos, pos < BOARD_POSITIONS ∧
        (step e a).env.board.getD pos 0 = (step e a).env.current_player := by
    intro hfly
    have hgp : (step e a).env.global_phase ≠ Phase.placement := by
      intro hpl
      have hpp := hp3n hpl
      rcases h0n with hcp | hcp
      · rw [hcp, PlayerMap.get_one, hpp.1] at hfly
        cases hfly
      · rw [hcp, PlayerMap.get_negone, hpp.2] at hfly
        cases hfly
    have hcount : 3 ≤ (step e a).env.pieces_on_board.get (step e a).env.current_player := by
      unfold elimCond at helim
      rw [Bool.and_eq_false_iff] at helim
      rcases helim with h | h
      · exfalso
        apply hgp
        simpa using h
      · have hnl := of_decide_eq_false h
        rw [← hsf.1] at hnl
        omega
    have hpos : 0 < countPieces (step e a).env.board (step e a).env.current_player := by
      rcases h0n with hcp | hcp
      · rw [hcp] at hcount ⊢
        rw [hcn1] at hcount
        omega
      · rw [hcp] at hcount ⊢
        rw [hcn2] at hcount
        omega
    obtain ⟨pos, hplen, hpget⟩ := countPieces_pos_exists _ _ hpos
    exact ⟨pos, by rw [hlenN] at hplen; exact hplen, hpget⟩
  constructor
  · rw [hblock]
    rw [Bool.not_eq_true']
    exact hasMove_iff_valid (step e a).env hflyhyp
  · intro hb
    refine ⟨?_, ?_, ?_⟩
    · rw [hsf.2.2.1, helim, hb]
      rfl
    · intro hle
      exact hsf.2.2.2.2.1 hle (by rw [helim, hb]; rfl)
    · intro hgt
      exact hsf.2.2.2.1 hgt

/-- C6 witness: the blockade characterisation instantiated at the
opening placement from a fresh session. -/
theorem claim_C6_witness :
    run [] = some (resetEnv, false, 0, 0) ∧
    Action.place 0 ∈
      (if (false : Bool) then get_valid_capture_actions resetEnv
       else get_valid_actions resetEnv) ∧
    (step resetEnv (Action.place 0)).info ≠ Info.needs_capture ∧
    elimCond (step resetEnv (Action.place 0)).env resetEnv.current_player = false ∧
    (blockCond (step resetEnv (Action.place 0)).env resetEnv.current_player = true ↔
      get_valid_actions (step resetEnv (Action.place 0)).env = []) :=
  ⟨rfl, by decide, by decide, by decide,
    (claim_C6 [] resetEnv false 0 0 rfl (Action.place 0)
      (by decide) (by decide) (by decide)).1⟩

/-- C1 (counterexample to the claim as stated): in `c1env` the acting
player's move from 23 to 14 blockades the opponent while the move
counter passes 201.  The blockade condition holds and the counter
exceeds 200, yet the recorded result is the draw (winner 0), not a win
for the acting player: the move-limit check is not guarded by the
earlier verdict and overwrites it. -/
theorem claim_C1_counterexample :
    blockCond (step c1env (Action.move 23 14)).env c1env.current_player = true ∧
    (step c1env (Action.move 23 14)).env.move_count = 201 ∧
    (step c1env (Action.move 23 14)).done = true ∧
    (step c1env (Action.move 23 14)).env.winner = some 0 := by
  decide

/-- C1 (amended): on every completed (non-capture-owed) step the
terminal checks run in the source order elimination, blockade,
move-limit; an elimination or blockade condition ends the game, and the
winner is the acting player when the move counter is at most 200; but
whenever the counter exceeds 200 the move-limit draw applies last and
unconditionally, overriding the win verdict; with no condition and the
counter within the limit the step does not end the game. -/
theorem claim_C1 (e : Env) (a : Action)
    (hnotowed : (step e a).info ≠ Info.needs_capture) :
    ((elimCond (step e a).env e.current_player = true ∨
        blockCond (step e a).env e.current_player = true) →
      (step e a).done = true) ∧
    ((step e a).env.move_count ≤ 200 →
      (elimCond (step e a).env e.current_player = true ∨
        blockCond (step e a).env e.current_player = true) →
      (step e a).env.winner = some e.current_player) ∧
    ((step e a).env.move_count > 200 →
      (step e a).done = true ∧ (step e a).env.winner = some 0) ∧
    ((step e a).env.move_count ≤ 200 →
      elimCond (step e a).env e.current_player = false →
      blockCond (step e a).env e.current_player = false →
      (step e a).done = false ∧ (step e a).env.winner = e.winner) := by
  have hsf := step_final_facts e a hnotowed
  refine ⟨?_, ?_, ?_, ?_⟩
  · intro hcond
    rw [hsf.2.2.1]
    rcases hcond with h | h <;> rw [h] <;> simp
  · intro hle hcond
    refine hsf.2.2.2.2.1 hle ?_
    rcases hcond with h | h <;> rw [h] <;> simp
  · intro hgt
    refine ⟨?_, hsf.2.2.2.1 hgt⟩
    rw [hsf.2.2.1, decide_eq_true hgt]
    simp
  · intro hle he hb
    refine ⟨?_, hsf.2.2.2.2.2 hle (by rw [he, hb]; rfl)⟩
    rw [hsf.2.2.1, he, hb, decide_eq_false (by omega)]
    rfl

/-- C1 witness: the same blockade position with the move counter at
51 after the step: the blockade win stands. -/
theorem claim_C1_witness :
    (step c1wenv (Action.move 23 14)).info ≠ Info.needs_capture ∧
    (step c1wenv (Action.move 23 14)).env.move_count ≤ 200 ∧
    blockCond (step c1wenv (Action.move 23 14)).env c1wenv.current_player = true ∧
    (step c1wenv (Action.move 23 14)).env.winner = some c1wenv.current_player :=
  ⟨by decide, by decide, by decide,
    (claim_C1 c1wenv (Action.move 23 14) (by decide)).2.1 (by decide) (Or.inr (by decide))⟩

/-- C8 (counterexample to the claim as stated): in `c8env` the acting
player captures the opponent's third piece outside the placement phase
while the move counter passes 201: the step sets done but records the
draw (winner 0) rather than the acting player, because the move-limit
check overwrites the elimination verdict. -/
theorem claim_C8_counterexample :
    c8env.current_player = 1 ∧
    (step c8env (Action.capture 4)).env.global_phase ≠ Phase.placement ∧
    (step c8env (Action.capture 4)).env.pieces_on_board.get (-c8env.current_player) < 3 ∧
    (step c8env (Action.capture 4)).done = true ∧
    (step c8env (Action.capture 4)).env.winner = some 0 := by
  decide

/-- C8 (amended): every completed (non-capture-owed) step that ends
outside the global placement phase with the acting player's opponent
below 3 pieces on board returns done = true, with the acting player as
winner when the move counter is at most 200 and the move-limit draw
overriding the winner beyond 200.  A mill-forming step that still owes
a capture defers the check to the owed capture step. -/
theorem claim_C8 (e : Env) (a : Action)
    (hnotowed : (step e a).info ≠ Info.needs_capture)
    (hout : (step e a).env.global_phase ≠ Phase.placement)
    (hlt : (step e a).env.pieces_on_board.get (-e.current_player) < 3) :
    (step e a).done = true ∧
    ((step e a).env.move_count ≤ 200 → (step e a).env.winner = some e.current_player) ∧
    ((step e a).env.move_count > 200 → (step e a).env.winner = some 0) := by
  have helim : elimCond (step e a).env e.current_player = true := by
    unfold elimCond
    rw [Bool.and_eq_true]
    constructor
    · simpa using hout
    · exact decide_eq_true hlt
  have hsf := step_final_facts e a hnotowed
  refine ⟨?_, ?_, ?_⟩
  · rw [hsf.2.2.1, helim]
    simp
  · intro hle
    exact hsf.2.2.2.2.1 hle (by rw [helim]; rfl)
  · intro hgt
    exact hsf.2.2.2.1 hgt

/-- C8 witness: the same elimination capture with the move counter at
51 after the step: the acting player wins. -/
theorem claim_C8_witness :
    (step c8wenv (Action.capture 4)).info ≠ Info.needs_capture ∧
    (step c8wenv (Action.capture 4)).env.global_phase ≠ Phase.placement ∧
    (step c8wenv (Action.capture 4)).env.pieces_on_board.get (-c8wenv.current_player) < 3 ∧
    (step c8wenv (Action.capture 4)).env.move_count ≤ 200 ∧
    (step c8wenv (Action.capture 4)).env.winner = some c8wenv.current_player :=
  ⟨by decide, by decide, by decide, by decide,
    (claim_C8 c8wenv (Action.capture 4) (by decide) (by decide) (by decide)).2.1 (by decide)⟩

theorem getD_map_range (m : Nat) (f : Nat → Rat) (pos : Nat) (h : pos < m) :
    ((List.range m).map f).getD pos 0 = f pos := by
  rw [List.getD_eq_getElem?_getD, List.getElem?_map, List.getElem?_range h]
  rfl

/-- C9: the state encoder returns 7 rows of 24 entries; row 0 marks
the acting player's cells, row 1 the opponent's, rows 2-4 are the
uniform one-hot of the acting player's phase, row 5 is uniformly that
player's hand count divided by 9, and row 6 marks the empty cells; and
the tensor depends only on the board, the acting player, that player's
phase and that player's hand, so repeated calls on an unchanged session
return the same tensor. -/
theorem claim_C9 (e : Env) (pos : Nat) (hpos : pos < BOARD_POSITIONS) :
    (get_state e).length = 7 ∧
    (∀ row ∈ get_state e, row.length = BOARD_POSITIONS) ∧
    ((get_state e).getD 0 []).getD pos 0 =
      (if e.board.getD pos 0 = e.current_player then 1 else 0) ∧
    ((get_state e).getD 1 []).getD pos 0 =
      (if e.board.getD pos 0 = -e.current_player then 1 else 0) ∧
    ((get_state e).getD 2 []).getD pos 0 =
      (if e.player_phase.get e.current_player = Phase.placement then 1 else 0) ∧
    ((get_state e).getD 3 []).getD pos 0 =
      (if e.player_phase.get e.current_player = Phase.movement then 1 else 0) ∧
    ((get_state e).getD 4 []).getD pos 0 =
      (if e.player_phase.get e.current_player = Phase.flying then 1 else 0) ∧
    ((get_state e).getD 5 []).getD pos 0 =
      (e.pieces_in_hand.get e.current_player : Rat) / 9 ∧
    ((get_state e).getD 6 []).getD pos 0 =
      (if e.board.getD pos 0 = 0 then 1 else 0) ∧
    (∀ e2 : Env, e2.player_phase.get e2.current_player = e.player_phase.get e.current_player →
      e2.pieces_in_hand.get e2.current_player = e.pieces_in_hand.get e.current_player →
      e2.board = e.board → e2.current_player = e.current_player →
      get_state e2 = get_state e) := by
  refine ⟨rfl, ?_, ?_, ?_, ?_, ?_, ?_, ?_, ?_, ?_⟩
  · intro row hrow
    unfold get_state at hrow
    simp only [List.mem_cons, List.not_mem_nil, or_false] at hrow
    rcases hrow with h | h | h | h | h | h | h <;> rw [h] <;>
      simp [List.length_map, List.length_range]
  · exact getD_map_range _ _ _ hpos
  · exact getD_map_range _ _ _ hpos
  · exact getD_map_range _ _ _ hpos
  · rw [show (get_state e).getD 3 [] =
        (List.range BOARD_POSITIONS).map
          (fun _ => if e.player_phase.get e.current_player ≠ Phase.placement ∧
              e.player_phase.get e.current_player = Phase.movement then (1 : Rat) else 0)
      from rfl]
    rw [getD_map_range _ _ _ hpos]
    rcases hph : e.player_phase.get e.current_player <;> simp
  · rw [show (get_state e).getD 4 [] =
        (List.range BOARD_POSITIONS).map
          (fun _ => if e.player_phase.get e.current_player ≠ Phase.placement ∧
              e.player_phase.get e.current_player ≠ Phase.movement then (1 : Rat) else 0)
      from rfl]
    rw [getD_map_range _ _ _ hpos]
    rcases hph : e.player_phase.get e.current_player <;> simp
  · rw [show (get_state e).getD 5 [] =
        (List.range BOARD_POSITIONS).map
          (fun _ => (e.pieces_in_hand.get e.current_player : Rat) / (PIECES_PER_PLAYER : Rat))
      from rfl]
    rw [getD_map_range _ _ _ hpos]
    norm_num [PIECES_PER_PLAYER]
  · exact getD_map_range _ _ _ hpos
  · intro e2 hph hh hb hcp
    unfold get_state
    rw [hph, hh, hb, hcp]

/-- C10: every `step` call — capture actions included — increments
the move counter by exactly 1, so a mill-plus-capture turn contributes
two units toward the 200-move ceiling; the concrete scenario shows the
draw first becoming true on the capture half of such a turn. -/
theorem claim_C10 :
    (∀ (e : Env) (a : Action), (step e a).env.move_count = e.move_count + 1) ∧
    ((step c10env (Action.move 14 2)).info = Info.needs_capture ∧
     (step c10env (Action.move 14 2)).done = false ∧
     (step c10env (Action.move 14 2)).env.move_count = 200 ∧
     (step (step c10env (Action.move 14 2)).env (Action.capture 5)).env.move_count = 201 ∧
     (step (step c10env (Action.move 14 2)).env (Action.capture 5)).done = true ∧
     (step (step c10env (Action.move 14 2)).env (Action.capture 5)).env.winner = some 0) := by
  constructor
  · intro e a
    rcases a with pos | ⟨f, t⟩ | p
    · simp only [step]
      split_ifs with hm hc
      · rfl
      · exact (finishStep_env_fields _ _ _).2.2.2.2.1.trans rfl
      · exact (finishStep_env_fields _ _ _).2.2.2.2.1.trans rfl
    · simp only [step]
      split_ifs with hm hc
      · rfl
      · exact (finishStep_env_fields _ _ _).2.2.2.2.1.trans rfl
      · exact (finishStep_env_fields _ _ _).2.2.2.2.1.trans rfl
    · exact (finishStep_env_fields _ _ _).2.2.2.2.1.trans rfl
  · exact ⟨by decide, by decide, by decide, by decide, by decide, by decide⟩


/-- C9 witness: the empty-cell row of the fresh session at cell 0. -/
theorem claim_C9_witness :
    0 < BOARD_POSITIONS ∧
    ((get_state resetEnv).getD 6 []).getD 0 0 =
      (if resetEnv.board.getD 0 0 = 0 then 1 else 0) :=
  ⟨by decide, (claim_C9 resetEnv 0 (by decide)).2.2.2.2.2.2.2.2.1⟩

end NMM
